import Mathlib

/-!
Verification of the vastai operator scripts.

Shallow embedding of the pure computational parts of
- src/python_scripts/components/comfyui_api.py
- src/python_scripts/monitor_instance.py
- src/SCRIPTS/python_scripts/workflows/analyze_workflow_generic.py

JSON values are modelled by an inductive `JValue`; Python dicts are
association lists preserving insertion order (as CPython does); fallible
Python code (code that can raise) is modelled in `Except String`.
Python numbers are modelled by `Int` (no claim depends on non-integer
arithmetic), and `bool` is kept separate while numeric predicates
account for CPython's `bool <: int`.
-/

namespace Vastai

/-- A JSON value as produced by Python's `json.loads`. -/
inductive JValue where
  | null
  | bool (b : Bool)
  | num (n : Int)
  | str (s : String)
  | arr (xs : List JValue)
  | obj (kvs : List (String × JValue))

/-- A Python dict with string keys, in insertion order. -/
abbrev Obj := List (String × JValue)

/-- Dict lookup (`d[k]` when the key is present). -/
def olookup : Obj → String → Option JValue
  | [], _ => none
  | (k, v) :: rest, key => if k = key then some v else olookup rest key

/-- Dict assignment `d[k] = v`: replaces in place if the key exists
    (CPython keeps the original position), otherwise appends. -/
def oset : Obj → String → JValue → Obj
  | [], key, val => [(key, val)]
  | (k, v) :: rest, key, val =>
      if k = key then (k, val) :: rest else (k, v) :: oset rest key val

/-- `d.update(other)`: assign every pair of `other` in order. -/
def oupdate (d other : Obj) : Obj := other.foldl (fun acc kv => oset acc kv.1 kv.2) d

/-- Python `d.get(k)`: `None` when absent (indistinguishable from a stored null). -/
def dget (d : Obj) (k : String) : JValue := (olookup d k).getD JValue.null

/-- Python `d.get(k, default)`. -/
def dgetD (d : Obj) (k : String) (dflt : JValue) : JValue := (olookup d k).getD dflt

/-- Python `k in d` for a dict. -/
def dhasKey (d : Obj) (k : String) : Bool := (olookup d k).isSome

/-- Python truthiness of a JSON value. -/
def pyTruthy : JValue → Bool
  | .null => false
  | .bool b => b
  | .num n => n != 0
  | .str s => !(s == "")
  | .arr xs => !xs.isEmpty
  | .obj kvs => !kvs.isEmpty

/-- Decimal digits of a natural number, most significant first, via `Nat.digits`. -/
def natDecChars (n : Nat) : List Char :=
  ((Nat.digits 10 n).map (fun d => Char.ofNat (48 + d))).reverse

/-- Decimal rendering of an integer, as Python's `str` renders an `int`. -/
def intToDecString (n : Int) : String :=
  if n = 0 then "0"
  else if n < 0 then "-" ++ String.mk (natDecChars n.natAbs)
  else String.mk (natDecChars n.natAbs)

/-- Python `str(x)`.  `str` of a list or dict (Python's `repr`) is not needed
    under the theorems' hypotheses and is modelled by a placeholder. -/
def pyStr : JValue → String
  | .null => "None"
  | .bool true => "True"
  | .bool false => "False"
  | .num n => intToDecString n
  | .str s => s
  | .arr _ => "<list>"
  | .obj _ => "<dict>"

/-- Is `c` a decimal digit? -/
def isDigitChar (c : Char) : Bool := 48 ≤ c.toNat && c.toNat ≤ 57

/-- Decode a big-endian list of digit characters. -/
def decDecode (cs : List Char) : Nat := cs.foldl (fun a c => a * 10 + (c.toNat - 48)) 0

/-- Python `int(s)` on a string (sign + decimal digits; raises `ValueError` otherwise). -/
def pyIntOfString (s : String) : Except String Int :=
  match s.toList with
  | [] => .error "ValueError: invalid literal for int"
  | c :: rest =>
      if c = '-' then
        if !rest.isEmpty && rest.all isDigitChar then .ok (-(decDecode rest : Int))
        else .error "ValueError: invalid literal for int"
      else
        if (c :: rest).all isDigitChar then .ok ((decDecode (c :: rest) : Int))
        else .error "ValueError: invalid literal for int"

/-- Is a JSON value the null value (Python `x is None` for decoded JSON)? -/
def jIsNull : JValue → Bool
  | .null => true
  | _ => false

/-- The dict under a JSON value (junk default; used where objecthood is
    already established). -/
def jUnwrapObj : JValue → Obj
  | .obj kvs => kvs
  | _ => []

/-- Numeric view used by Python `==` and `isinstance(x, (int, float))`:
    CPython's `bool` is a subtype of `int`. -/
def pyNumVal : JValue → Option Int
  | .num n => some n
  | .bool b => some (if b then 1 else 0)
  | _ => none

mutual
/-- Python `==` on JSON values.  Numbers and booleans compare by value
    (`True == 1`); dict comparison is modelled order-sensitively (the claims
    only ever compare scalars and lists). -/
def pyEq : JValue → JValue → Bool
  | .null, .null => true
  | .str a, .str b => a == b
  | .arr as, .arr bs => pyEqList as bs
  | .obj as, .obj bs => pyEqObj as bs
  | a, b =>
      match pyNumVal a, pyNumVal b with
      | some x, some y => x == y
      | _, _ => false

def pyEqList : List JValue → List JValue → Bool
  | [], [] => true
  | a :: as, b :: bs => pyEq a b && pyEqList as bs
  | _, _ => false

def pyEqObj : List (String × JValue) → List (String × JValue) → Bool
  | [], [] => true
  | (k, v) :: as, (k', v') :: bs => k == k' && pyEq v v' && pyEqObj as bs
  | _, _ => false
end

/-- View a value as a dict; any attribute access or `in` on a non-dict raises. -/
def asObj : JValue → Except String Obj
  | .obj kvs => .ok kvs
  | _ => .error "TypeError: expected a dict"

/-- View a value as a string (used where a value becomes a dict key). -/
def asStr : JValue → Except String String
  | .str s => .ok s
  | _ => .error "TypeError: expected a str key"

/-- Python `d[k]` on a dict: `KeyError` when absent. -/
def oindex (d : Obj) (k : String) : Except String JValue :=
  match olookup d k with
  | some v => .ok v
  | none => .error ("KeyError: " ++ k)

/-- Python `v[k]` where `v` must itself be a dict. -/
def jindex (v : JValue) (k : String) : Except String JValue := do
  let d ← asObj v
  oindex d k

/-- Python substring containment `pat in s`. -/
def strContains (s pat : String) : Bool := decide (pat.toList <:+: s.toList)

/-- Python `s.lower()` (ASCII range; the classified substrings are ASCII). -/
def pyLower (s : String) : String := String.mk (s.toList.map Char.toLower)

/-- Python `s.startswith(pre)`. -/
def pyStartsWith (s pre : String) : Bool := pre.toList.isPrefixOf s.toList

/-- Python `s[n:]` (drop the first `n` characters). -/
def pyDrop (s : String) (n : Nat) : String := String.mk (s.toList.drop n)

/-- Python `s.split('\n')` over the character list. -/
def splitNlAux : List Char → List Char → List String
  | [], acc => [String.mk acc.reverse]
  | c :: rest, acc =>
      if c = '\n' then String.mk acc.reverse :: splitNlAux rest []
      else splitNlAux rest (c :: acc)

/-- Python `s.split('\n')`. -/
def pySplitLines (s : String) : List String := splitNlAux s.toList []

/-- Left-to-right non-overlapping replacement of a non-empty pattern, with a
    fuel argument (the scanned list's length) keeping the recursion
    structural. -/
def replaceAllAux (pat rep : List Char) : Nat → List Char → List Char
  | 0, s => s
  | _ + 1, [] => []
  | fuel + 1, c :: rest =>
      if pat.isPrefixOf (c :: rest) then
        rep ++ replaceAllAux pat rep fuel ((c :: rest).drop pat.length)
      else c :: replaceAllAux pat rep fuel rest

/-- Python `s.replace(pat, rep)` (every occurrence, scanning left to right;
    the sources only replace non-empty patterns). -/
def pyReplace (s pat rep : String) : String :=
  if pat.toList.isEmpty then s
  else String.mk (replaceAllAux pat.toList rep.toList s.toList.length s.toList)


/-!
## comfyui_api.py — `ComfyUIController`

The SSH/curl plumbing is I/O; the pure computations embedded here are
`_value_seems_wrong_for_input`, `map_widget_values_to_inputs`,
`modify_workflow` and the workflow-to-API-prompt conversion inside
`load_workflow_from_file` (the part after `json.loads` succeeds).
-/

/-- `ComfyUIController._value_seems_wrong_for_input` (the `all_values` and
    `current_index` parameters are unused by the source and omitted).
    `isinstance(value, (int, float))` also matches CPython booleans. -/
def value_seems_wrong_for_input (input_name : String) (value : JValue) : Bool :=
  (input_name == "steps" &&
    (match value with
     | .str s => s == "randomize" || s == "fixed"
     | _ => false)) ||
  (input_name == "start_at_step" &&
    (match value with
     | .str s => s == "beta" || s == "euler" || s == "simple"
     | _ => false)) ||
  (input_name == "sampler_name" && (pyNumVal value).isSome) ||
  (input_name == "return_with_leftover_noise" &&
    (match pyNumVal value with
     | some n => decide (1 < n)
     | none => false))

/-- The filtered list
    `[input_def for input_def in inputs_config
       if input_def.get('widget') is not None and input_def.get('link') is None]`:
    `.get` raises on a non-dict element, so the elements are materialised as
    dicts first (the comprehension fails at the first non-dict either way). -/
def mapObjs : List JValue → Except String (List Obj)
  | [] => .ok []
  | d :: rest => do
      let o ← asObj d
      let os ← mapObjs rest
      .ok (o :: os)

def widgetInputsOf (inputs_config : List JValue) : Except String (List Obj) := do
  let objs ← mapObjs inputs_config
  .ok (objs.filter (fun d => !(jIsNull (dget d "widget")) && jIsNull (dget d "link")))

/-- The `else` branch of `map_widget_values_to_inputs`
    (`for i, input_def in enumerate(widget_inputs): if i < len(widget_values):
       api_inputs[input_def['name']] = widget_values[i]`). -/
def mapSimpleLoop (values : List JValue) : List Obj → Nat → Obj → Except String Obj
  | [], _, acc => .ok acc
  | d :: rest, i, acc =>
      if h : i < values.length then do
        let nameV ← oindex d "name"
        let name ← asStr nameV
        mapSimpleLoop values rest (i + 1) (oset acc name (values.get ⟨i, h⟩))
      else
        mapSimpleLoop values rest (i + 1) acc

/-- The heuristic branch of `map_widget_values_to_inputs`: a cursor
    `widget_index` walks the value list; a value flagged by
    `_value_seems_wrong_for_input` is skipped (the next value, if any, is used
    instead), and the cursor advances past the consumed value. -/
def mapExtraLoop (values : List JValue) : List Obj → Nat → Obj → Except String Obj
  | [], _, acc => .ok acc
  | d :: rest, idx, acc => do
      let nameV ← oindex d "name"
      let name ← asStr nameV
      if h : idx < values.length then
        let value := values.get ⟨idx, h⟩
        if value_seems_wrong_for_input name value then
          let idx' := idx + 1
          let value' := if h2 : idx' < values.length then values.get ⟨idx', h2⟩ else value
          mapExtraLoop values rest (idx' + 1) (oset acc name value')
        else
          mapExtraLoop values rest (idx + 1) (oset acc name value)
      else
        mapExtraLoop values rest idx acc

/-- The list comprehension `[inp['name'] for inp in widget_inputs]` inside the
    diagnostic print of `map_widget_values_to_inputs`'s longer-values branch:
    it demands every widget input's name before the mapping loop runs. -/
def demandNames : List Obj → Except String (List JValue)
  | [] => .ok []
  | d :: rest => do
      let v ← oindex d "name"
      let vs ← demandNames rest
      .ok (v :: vs)

/-- `ComfyUIController.map_widget_values_to_inputs` (the `node_type` argument
    only feeds a diagnostic print). -/
def map_widget_values_to_inputs (widget_values : List JValue)
    (inputs_config : List JValue) : Except String Obj := do
  let widget_inputs ← widgetInputsOf inputs_config
  if widget_inputs.length < widget_values.length then do
    let _ ← demandNames widget_inputs
    mapExtraLoop widget_values widget_inputs 0 []
  else
    mapSimpleLoop widget_values widget_inputs 0 []

/-- The mutation `workflow[node_id]["inputs"][input_name] = new_val` performed
    by `modify_workflow` when `node_id in workflow`, returned value-style:
    the updated node replaces the old one at its position.  When the node id
    is absent the source prints a warning and leaves the dict alone. -/
def updateNodeInput (wf : Obj) (node_id input_name : String) (new_val : JValue) :
    Except String Obj :=
  match olookup wf node_id with
  | none => .ok wf
  | some nodeV => do
      let nodeObj ← asObj nodeV
      let inputsV ← oindex nodeObj "inputs"
      let inputsObj ← asObj inputsV
      let inputs' := oset inputsObj input_name new_val
      .ok (oset wf node_id (JValue.obj (oset nodeObj "inputs" (JValue.obj inputs'))))

/-- `ComfyUIController.modify_workflow`: sets the `text` input of the node
    keyed `prompt_node_id` and the `image` input of the node keyed
    `image_node_id`, skipping (with a printed warning) any absent node. -/
def modify_workflow (workflow : JValue) (image_filename prompt_text : String)
    (prompt_node_id image_node_id : String) : Except String JValue := do
  let wf ← asObj workflow
  let wf1 ← updateNodeInput wf prompt_node_id "text" (JValue.str prompt_text)
  let wf2 ← updateNodeInput wf1 image_node_id "image" (JValue.str image_filename)
  .ok (JValue.obj wf2)

/-- The scan `for link in links: if link[0] == link_id: ...; break` inside
    `load_workflow_from_file`: returns `[from_node, from_slot]` of the first
    matching link tuple, `none` when no tuple matches. -/
def findLink (links : List JValue) (link_id : JValue) :
    Except String (Option (JValue × JValue)) :=
  match links with
  | [] => .ok none
  | l :: rest => do
      let larr ← (match l with
        | .arr xs => .ok xs
        | _ => .error "TypeError: link tuple is not a list")
      let l0 ← (match larr.get? 0 with
        | some v => .ok v
        | none => .error "IndexError: link tuple")
      if pyEq l0 link_id then do
        let l1 ← (match larr.get? 1 with
          | some v => .ok v
          | none => .error "IndexError: link tuple")
        let l2 ← (match larr.get? 2 with
          | some v => .ok v
          | none => .error "IndexError: link tuple")
        .ok (some (l1, l2))
      else findLink rest link_id

/-- The connection pass of `load_workflow_from_file`: every input definition
    with a non-null `link` contributes `api_inputs[name] = [str(from_node),
    from_slot]` for the first matching link tuple (nothing when none matches). -/
def buildLinkInputs (links : List JValue) : List JValue → Obj → Except String Obj
  | [], acc => .ok acc
  | d :: rest, acc => do
      let dObj ← asObj d
      if !(jIsNull (dget dObj "link")) then do
        let link_id := dget dObj "link"
        let nameV ← oindex dObj "name"
        let name ← asStr nameV
        match ← findLink links link_id with
        | some (src, slot) =>
            buildLinkInputs links rest
              (oset acc name (JValue.arr [JValue.str (pyStr src), slot]))
        | none => buildLinkInputs links rest acc
      else
        buildLinkInputs links rest acc

/-- Conversion of one node record to its API-prompt entry
    (`node_id`, `{"class_type": type, "inputs": api_inputs}`). -/
def convertNode (links : List JValue) (node : JValue) :
    Except String (String × JValue) := do
  let nObj ← asObj node
  let idV ← oindex nObj "id"
  let node_id := pyStr idV
  let node_type ← oindex nObj "type"
  let linkAcc ← (match olookup nObj "inputs" with
    | some (JValue.arr defs) => buildLinkInputs links defs []
    | _ => .ok [])
  let api_inputs ← (match olookup nObj "widgets_values", olookup nObj "inputs" with
    | some wv, some inp =>
        if pyTruthy wv then
          match wv, inp with
          | JValue.arr values, JValue.arr defs => do
              let w ← map_widget_values_to_inputs values defs
              .ok (oupdate linkAcc w)
          | _, _ => .error "TypeError: widgets_values/inputs not lists"
        else .ok linkAcc
    | _, _ => .ok linkAcc)
  .ok (node_id,
       JValue.obj [("class_type", node_type), ("inputs", JValue.obj api_inputs)])

/-- The per-node conversion loop of `load_workflow_from_file`. -/
def convertNodes (links : List JValue) : List JValue → Except String (List (String × JValue))
  | [] => .ok []
  | node :: rest => do
      let e ← convertNode links node
      let es ← convertNodes links rest
      .ok (e :: es)

/-- The format conversion inside `ComfyUIController.load_workflow_from_file`
    (everything after `json.loads` succeeds): with a `nodes` key the workflow
    is rebuilt as an API prompt keyed by `str(node['id'])`; without one the
    parsed data is returned unchanged.  Python's `'nodes' in x` is key
    membership for a dict, element membership for a list, substring test for a
    string, and a `TypeError` otherwise. -/
def load_workflow_convert (workflow_data : JValue) : Except String JValue :=
  match workflow_data with
  | .obj kvs =>
      if dhasKey kvs "nodes" then do
        let nodesV ← oindex kvs "nodes"
        let nodes ← (match nodesV with
          | .arr xs => .ok xs
          | _ => .error "TypeError: nodes is not a list")
        let links := (match dgetD kvs "links" (JValue.arr []) with
          | .arr ls => ls
          | _ => [])
        let entries ← convertNodes links nodes
        .ok (JValue.obj (entries.foldl (fun acc kv => oset acc kv.1 kv.2) []))
      else .ok workflow_data
  | .arr xs =>
      if xs.any (fun v => pyEq v (JValue.str "nodes"))
      then .error "TypeError: list indices must be integers"
      else .ok workflow_data
  | .str s =>
      if strContains s "nodes"
      then .error "TypeError: string indices must be integers"
      else .ok workflow_data
  | _ => .error "TypeError: argument of type is not iterable"

/-!
## analyze_workflow_generic.py — the workflow flattener

`clean_workflow_for_config`, `extract_configurable_values`,
`format_for_easy_editing` and `create_user_friendly_template` are pure JSON
transforms; they are embedded in `Except String` because several accesses can
raise (`KeyError`, `TypeError`, `int(...)` on a non-numeric string).
Python dict keys that are not strings (a node whose `type` is missing groups
under the key `None`) are modelled by their `str` rendering; under the
theorems' hypotheses every such key is a string and the model is exact.
-/

/-- Python iteration `for x in v`: a list yields its elements, a dict its
    keys, a string its characters (as one-character strings); anything else
    raises `TypeError`. -/
def pyIterate : JValue → Except String (List JValue)
  | .arr xs => .ok xs
  | .obj kvs => .ok (kvs.map (fun kv => JValue.str kv.1))
  | .str s => .ok (s.toList.map (fun c => JValue.str (String.mk [c])))
  | _ => .error "TypeError: object is not iterable"

/-- Python `key in v`: key membership for a dict, element membership for a
    list, substring test for a string, `TypeError` otherwise. -/
def pyInOp (key : String) : JValue → Except String Bool
  | .obj kvs => .ok (dhasKey kvs key)
  | .arr xs => .ok (xs.any (fun v => pyEq (JValue.str key) v))
  | .str s => .ok (strContains s key)
  | _ => .error "TypeError: argument is not a container"

/-- The input-widget loop of `extract_configurable_values`: every input with a
    `widget` key contributes `configurable_inputs[inp['widget']['name']] =
    {"type": inp.get("type"), "current_value": None}`. -/
def extractInputWidgets : List JValue → Obj → Except String Obj
  | [], acc => .ok acc
  | inp :: rest, acc => do
      let hasW ← pyInOp "widget" inp
      if hasW then do
        let wv ← jindex inp "widget"
        let nameV ← jindex wv "name"
        let widget_name ← asStr nameV
        let inpObj ← asObj inp
        let entry : Obj := [("type", dget inpObj "type"), ("current_value", JValue.null)]
        extractInputWidgets rest (oset acc widget_name (JValue.obj entry))
      else extractInputWidgets rest acc

/-- `extract_configurable_values`: a truthy `widgets_values` is copied under
    `widgets_values`; the input widgets (when any) go under `input_widgets`. -/
def extract_configurable_values (node : Obj) : Except String Obj := do
  let widgets_values := dgetD node "widgets_values" (JValue.arr [])
  let configurable : Obj :=
    if pyTruthy widgets_values then [("widgets_values", widgets_values)] else []
  let inputs := dgetD node "inputs" (JValue.arr [])
  let inputsList ← pyIterate inputs
  let configurable_inputs ← extractInputWidgets inputsList []
  if !configurable_inputs.isEmpty then
    .ok (oset configurable "input_widgets" (JValue.obj configurable_inputs))
  else
    .ok configurable

/-- The node loop of `clean_workflow_for_config`: a node is stored under
    `str(node.get("id"))` exactly when its `configurable` dict is truthy. -/
def buildCleanNodes : List JValue → Obj → Except String Obj
  | [], acc => .ok acc
  | node :: rest, acc => do
      let nObj ← asObj node
      let node_id := pyStr (dget nObj "id")
      let node_type := dget nObj "type"
      let node_title := dgetD nObj "title" (JValue.str (pyStr node_type ++ "_" ++ node_id))
      let configurable ← extract_configurable_values nObj
      let clean_node : Obj :=
        [("type", node_type), ("title", node_title), ("configurable", JValue.obj configurable)]
      if !configurable.isEmpty then
        buildCleanNodes rest (oset acc node_id (JValue.obj clean_node))
      else
        buildCleanNodes rest acc

/-- `clean_workflow_for_config`. -/
def clean_workflow_for_config (workflow_data : JValue) : Except String JValue := do
  let wdObj ← asObj workflow_data
  let info : Obj :=
    [("id", dget wdObj "id"),
     ("name", JValue.str ""),
     ("description", JValue.str "Auto-generated configuration template")]
  let nodes ← pyIterate (dgetD wdObj "nodes" (JValue.arr []))
  let nodesOut ← buildCleanNodes nodes []
  let cleaned : Obj :=
    [("workflow_info", JValue.obj info), ("nodes", JValue.obj nodesOut)]
  if dhasKey wdObj "links" then
    .ok (JValue.obj (oset cleaned "links" (dget wdObj "links")))
  else
    .ok (JValue.obj cleaned)

/-- The `instance_config` block repeated in `format_for_easy_editing` and
    `create_user_friendly_template`. -/
def instanceConfigBlock (dps : String) : Obj :=
  [("gpu_name", JValue.str "RTX 5090"),
   ("gpu_index", JValue.num 0),
   ("provisioning_script", JValue.str dps),
   ("note", JValue.str "Instance creation settings - used when creating new instances for this workflow")]

/-- The grouping loop of `format_for_easy_editing`: each cleaned node is filed
    under its node type, keyed `f"{node_id}_{node_title}".replace(" ", "_")`,
    with `node_id` parsed back by `int(...)`. -/
def formatLoop : List (String × JValue) → Obj → Except String Obj
  | [], acc => .ok acc
  | (node_id, node_data) :: rest, acc => do
      let node_type ← jindex node_data "type"
      let node_title ← jindex node_data "title"
      let typeKey := pyStr node_type
      let group := match olookup acc typeKey with
        | some (JValue.obj g) => g
        | _ => []
      let instance_key := pyReplace (node_id ++ "_" ++ pyStr node_title) " " "_"
      let n ← pyIntOfString node_id
      let params ← jindex node_data "configurable"
      let entry : Obj :=
        [("node_id", JValue.num n), ("title", node_title), ("parameters", params)]
      formatLoop rest (oset acc typeKey (JValue.obj (oset group instance_key (JValue.obj entry))))

/-- `format_for_easy_editing`. -/
def format_for_easy_editing (cleaned : JValue) : Except String JValue := do
  let cObj ← asObj cleaned
  let infoV ← oindex cObj "workflow_info"
  let workflow_name ← jindex infoV "name"
  let dps := pyStr workflow_name ++ ".sh"
  let nodesV ← oindex cObj "nodes"
  let nodesObj ← asObj nodesV
  let cp ← formatLoop nodesObj []
  let formatted : Obj :=
    [("workflow_info", infoV),
     ("instance_config", JValue.obj (instanceConfigBlock dps)),
     ("configurable_parameters", JValue.obj cp)]
  if dhasKey cObj "links" then
    .ok (JValue.obj (oset formatted "workflow_links" (dget cObj "links")))
  else
    .ok (JValue.obj formatted)

/-- Inner loop of `create_user_friendly_template`: each node instance with a
    truthy `parameters` dict is copied with its `widgets_values` (default
    `[]`). -/
def createInner (node_type : String) : List (String × JValue) → Obj → Except String Obj
  | [], acc => .ok acc
  | (instance_name, instance_data) :: rest, acc => do
      let paramsV ← jindex instance_data "parameters"
      if pyTruthy paramsV then do
        let nidV ← jindex instance_data "node_id"
        let titleV ← jindex instance_data "title"
        let pObj ← asObj paramsV
        let entry : Obj :=
          [("node_type", JValue.str node_type),
           ("node_id", nidV),
           ("title", titleV),
           ("values", dgetD pObj "widgets_values" (JValue.arr [])),
           ("note", JValue.str ("Configurable parameters for " ++ node_type))]
        createInner node_type rest (oset acc instance_name (JValue.obj entry))
      else createInner node_type rest acc

/-- Outer loop of `create_user_friendly_template` over the per-type groups. -/
def createOuter : List (String × JValue) → Obj → Except String Obj
  | [], acc => .ok acc
  | (node_type, instancesV) :: rest, acc => do
      let instances ← asObj instancesV
      let acc' ← createInner node_type instances acc
      createOuter rest acc'

/-- `create_user_friendly_template`. -/
def create_user_friendly_template (formatted : JValue) : Except String JValue := do
  let fObj ← asObj formatted
  let infoV ← oindex fObj "workflow_info"
  let workflow_name ← jindex infoV "name"
  let dps := pyStr workflow_name ++ ".sh"
  let cpV ← oindex fObj "configurable_parameters"
  let cpObj ← asObj cpV
  let params ← createOuter cpObj []
  let template : Obj :=
    [("workflow_name", workflow_name),
     ("description", JValue.str "Edit the values below, then use with execute_workflow_config.py"),
     ("instance_config", JValue.obj (instanceConfigBlock dps)),
     ("parameters", JValue.obj params)]
  .ok (JValue.obj (oset template "_internal"
    (JValue.obj [("original_structure", formatted),
                 ("note", JValue.str "This section is used internally for workflow reconstruction")])))

/-- The flattener pipeline `clean_workflow_for_config` followed by
    `format_for_easy_editing` and `create_user_friendly_template`. -/
def flattenPipeline (workflow_data : JValue) : Except String JValue := do
  let cleaned ← clean_workflow_for_config workflow_data
  let formatted ← format_for_easy_editing cleaned
  create_user_friendly_template formatted

/-!
## monitor_instance.py — `VastInstanceMonitor`

The pure parts embedded: the stderr classification of
`execute_remote_script`, `parse_status_output`, the `monitor` polling loop
(over an abstract per-iteration outcome, with wall-clock time advancing by
`poll_interval` per iteration, the sleeps being the loop's only modelled time
cost), `get_instance_info` (over an abstract HTTP result) and `get_ssh_info`.
-/

/-- Result of `subprocess.run` for the SSH invocation. -/
structure RunResult where
  returncode : Int
  stdout : String
  stderr : String

/-- Outcome of attempting the SSH subprocess. -/
inductive SSHOutcome where
  | completed (r : RunResult)
  | timedOut
  | sshMissing
  | otherExc (msg : String)

/-- `VastInstanceMonitor.execute_remote_script`: the early key check, the
    returncode-0 path, the stderr substring cascade and the exception
    handlers.  The Python source's status strings contain a literal
    backslash-n (written `\\n` in a plain Python string), reproduced here. -/
def execute_remote_script (keyExists : Bool) (outcome : SSHOutcome) : String :=
  if !keyExists then "STATUS: SSH_KEY_ERROR"
  else match outcome with
  | .completed r =>
      if r.returncode == 0 then r.stdout.trim
      else
        let e := pyLower r.stderr
        if strContains e "connection refused" || strContains e "no route to host" then
          "STATUS: SSH_NOT_READY\\nDETAILS: SSH service not available"
        else if strContains e "permission denied" || strContains e "publickey" then
          "STATUS: SSH_AUTH_ERROR\\nDETAILS: SSH key not authorized"
        else if strContains e "timeout" || strContains e "timed out"
                || strContains e "banner exchange" then
          "STATUS: SSH_NOT_READY\\nDETAILS: Connection timeout"
        else
          "STATUS: SSH_ERROR\\nDETAILS: " ++ r.stderr
  | .timedOut => "STATUS: SSH_NOT_READY\\nDETAILS: SSH connection timeout"
  | .sshMissing => "STATUS: SSH_ERROR\\nDETAILS: SSH client not installed"
  | .otherExc m => "STATUS: SSH_ERROR\\nDETAILS: " ++ m

/-- Parsed status report of `parse_status_output`. -/
structure StatusData where
  status : String
  details : String
  tunnel_urls : List (String × String)
  last_log : List String
  current_download : String
  error_details : List String

/-- The `current_section` state of `parse_status_output`. -/
inductive PSec where
  | urls | log | download | errs

/-- Assignment into the string-valued `tunnel_urls` dict. -/
def strSet : List (String × String) → String → String → List (String × String)
  | [], key, val => [(key, val)]
  | (k, v) :: rest, key, val =>
      if k = key then (k, val) :: rest else (k, v) :: strSet rest key val

/-- Python `s.split(sep, 1)`: split at the first occurrence of `sep`. -/
def splitFirstAux (sep : List Char) : List Char → List Char → Option (String × String)
  | pre, rest =>
      if sep.isPrefixOf rest then
        some (String.mk pre.reverse, String.mk (rest.drop sep.length))
      else match rest with
        | [] => none
        | c :: rest' => splitFirstAux sep (c :: pre) rest'

/-- `s.split(': ', 1)` succeeds (yields two parts) iff `': '` occurs in `s`. -/
def splitFirst (s sep : String) : Option (String × String) :=
  splitFirstAux sep.toList [] s.toList

/-- One line of `parse_status_output`'s loop. -/
def parseLine (st : StatusData × Option PSec) (line : String) : StatusData × Option PSec :=
  let (sd, sec) := st
  if pyStartsWith line "STATUS:" then
    ({ sd with status := pyReplace line "STATUS: " "" }, sec)
  else if pyStartsWith line "DETAILS:" then
    ({ sd with details := pyReplace line "DETAILS: " "" }, sec)
  else if pyStartsWith line "TUNNEL_URLS:" then (sd, some PSec.urls)
  else if pyStartsWith line "LAST_LOG:" then (sd, some PSec.log)
  else if pyStartsWith line "CURRENT_DOWNLOAD:" then (sd, some PSec.download)
  else if pyStartsWith line "ERROR_DETAILS:" then (sd, some PSec.errs)
  else match sec with
    | some PSec.urls =>
        if strContains line ":" then
          match splitFirst line ": " with
          | some (k, v) => ({ sd with tunnel_urls := strSet sd.tunnel_urls k v }, sec)
          | none => (sd, sec)
        else (sd, sec)
    | some PSec.log =>
        if pyStartsWith line "  " then
          ({ sd with last_log := sd.last_log ++ [pyDrop line 2] }, sec)
        else (sd, sec)
    | some PSec.download =>
        if pyStartsWith line "  " then
          ({ sd with current_download := sd.current_download ++ pyDrop line 2 ++ "\n" }, sec)
        else (sd, sec)
    | some PSec.errs =>
        if pyStartsWith line "  " then
          ({ sd with error_details := sd.error_details ++ [pyDrop line 2] }, sec)
        else (sd, sec)
    | none => (sd, sec)

/-- `VastInstanceMonitor.parse_status_output`. -/
def parse_status_output (output : String) : StatusData :=
  ((pySplitLines output).foldl parseLine
    (⟨"UNKNOWN", "", [], [], "", []⟩, none)).1

/-- What one iteration of `monitor`'s loop observed: `get_instance_info`
    returned `None`, `get_ssh_info` returned `None`, or the raw output of the
    remote status script. -/
inductive PollOutcome where
  | noInstanceData
  | noSSHInfo
  | scriptOutput (raw : String)

/-- The parsed status a `monitor` iteration acts on: `none` when the
    iteration only sleeps (no data, no SSH, or output without `STATUS:`). -/
def outcomeStatus : PollOutcome → Option String
  | .scriptOutput raw =>
      if strContains raw "STATUS:" then some (parse_status_output raw).status else none
  | _ => none

/-- The `while time.time() - start_time < max_wait_time` loop of `monitor`,
    with iteration `k` observing `f k`, elapsed time modelled as the
    accumulated sleeps `k * poll_interval` (each non-returning iteration
    sleeps exactly `poll_interval` seconds).  The fuel argument is an upper
    bound on the iteration count, sufficient whenever `poll_interval ≥ 1`. -/
def monitorAux (f : Nat → PollOutcome) (maxWaitTime pollInterval : Nat) :
    Nat → Nat → Bool
  | 0, _ => false
  | fuel + 1, k =>
      if k * pollInterval < maxWaitTime then
        match outcomeStatus (f k) with
        | some s =>
            if s == "READY" then true
            else if s == "ERROR" then false
            else monitorAux f maxWaitTime pollInterval fuel (k + 1)
        | none => monitorAux f maxWaitTime pollInterval fuel (k + 1)
      else false

/-- `VastInstanceMonitor.monitor (max_wait_minutes, poll_interval)`. -/
def monitor (f : Nat → PollOutcome) (max_wait_minutes poll_interval : Nat) : Bool :=
  monitorAux f (max_wait_minutes * 60) poll_interval (max_wait_minutes * 60 + 1) 0

/-- Result of the `requests.get` call in `get_instance_info`: a decoded JSON
    body, or a caught `requests.exceptions.RequestException` (including the
    `raise_for_status` path). -/
inductive HttpResult where
  | success (data : JValue)
  | requestError (msg : String)

/-- The request `get_instance_info` sends: the Vast.ai instances endpoint URL
    and the bearer-token `Authorization` header (source lines 56-57). -/
def instanceRequest (api_key : String) : String × (String × String) :=
  ("https://console.vast.ai/api/v0/instances/",
   ("Authorization", "Bearer " ++ api_key))

/-- The search loop of `get_instance_info`:
    `str(instance.get('id')) == str(self.instance_id)` (the monitor's
    instance id is a `sys.argv` string, so `str` of it is itself). -/
def findInstance (instance_id : String) : List JValue → Except String (Option JValue)
  | [] => .ok none
  | inst :: rest => do
      let iObj ← asObj inst
      if pyStr (dget iObj "id") == instance_id then .ok (some inst)
      else findInstance instance_id rest

/-- `VastInstanceMonitor.get_instance_info`: `None` on a caught request
    exception, the first matching instance record otherwise, `None` when no
    record matches. -/
def get_instance_info (instance_id : String) (resp : HttpResult) :
    Except String (Option JValue) :=
  match resp with
  | .requestError _ => .ok none
  | .success data => do
      let dObj ← asObj data
      let instances ← pyIterate (dgetD dObj "instances" (JValue.arr []))
      findInstance instance_id instances

/-- `VastInstanceMonitor.get_ssh_info`: `None` for falsy instance data or a
    non-`running` status; otherwise the API-reported `ssh_port` is replaced by
    `ssh_port + 1` (the source's "known Vast.ai issue" workaround) and the
    connection descriptor is returned when both host and (incremented) port
    are truthy. -/
def get_ssh_info (instance_data : Option JValue) : Except String (Option JValue) :=
  match instance_data with
  | none => .ok none
  | some v =>
      if !pyTruthy v then .ok none
      else do
        let d ← asObj v
        let status := dgetD d "actual_status" (JValue.str "unknown")
        if !pyEq status (JValue.str "running") then .ok none
        else
          let ssh_host := dget d "ssh_host"
          let ssh_port0 := dget d "ssh_port"
          let ssh_port ← (if pyTruthy ssh_host && pyTruthy ssh_port0 then
              match pyNumVal ssh_port0 with
              | some n => .ok (JValue.num (n + 1))
              | none => .error "TypeError: unsupported operand for +"
            else .ok ssh_port0)
          if !pyTruthy ssh_host || !pyTruthy ssh_port then .ok none
          else .ok (some (JValue.obj
            [("host", ssh_host), ("port", ssh_port), ("status", status)]))

/-!
## Helper definitions used by the theorem statements
-/

/-- Names of the linkless widget inputs, in order (the `name` entry of every
    element kept by `widgetInputsOf`), extracted fallibly. -/
def widgetNamesLoop : List Obj → Except String (List String)
  | [] => .ok []
  | d :: rest => do
      let v ← oindex d "name"
      let n ← asStr v
      let ns ← widgetNamesLoop rest
      .ok (n :: ns)

/-- Names of the linkless widget inputs of an `inputs_config` list. -/
def widgetNamesOf (inputs_config : List JValue) : Except String (List String) := do
  let ws ← widgetInputsOf inputs_config
  widgetNamesLoop ws

/-- Modelled from the spec: the best-effort alignment used when the value list
    is longer than the widget-input list.  A cursor walks the value list; at
    each expected input, when the sniffing rule flags the current value the
    cursor advances past it and the next value (if any) is used instead; the
    chosen value is assigned to the input's name and the cursor advances past
    the consumed value. -/
def skipCursorMap (values : List JValue) : List String → Nat → Obj → Obj
  | [], _, acc => acc
  | n :: rest, idx, acc =>
      if h : idx < values.length then
        if value_seems_wrong_for_input n (values.get ⟨idx, h⟩) then
          let idx' := idx + 1
          let v := if h2 : idx' < values.length then values.get ⟨idx', h2⟩
                   else values.get ⟨idx, h⟩
          skipCursorMap values rest (idx' + 1) (oset acc n v)
        else
          skipCursorMap values rest (idx + 1) (oset acc n (values.get ⟨idx, h⟩))
      else
        skipCursorMap values rest idx acc

/-- The key `str(node['id'])` under which `load_workflow_from_file` files a
    node (total rendering; the theorems' hypotheses make `id` present). -/
def nodeKeyStr : JValue → String
  | .obj nObj => pyStr (dget nObj "id")
  | _ => ""

/-- The `name` of an input definition, total with a junk default. -/
def inputNameOf : JValue → String
  | .obj dObj =>
      match olookup dObj "name" with
      | some (.str n) => n
      | _ => ""
  | _ => ""

/-- The input definitions of a node (empty unless `inputs` is a list). -/
def inputDefsOf (nObj : Obj) : List JValue :=
  match olookup nObj "inputs" with
  | some (.arr defs) => defs
  | _ => []

/-- Well-formed input definitions: dicts with string `name` entries, the
    names pairwise distinct. -/
def InputDefsWF (defs : List JValue) : Prop :=
  (∀ d ∈ defs, ∃ dObj n, d = JValue.obj dObj ∧ olookup dObj "name" = some (JValue.str n)) ∧
  (defs.map inputNameOf).Nodup

/-- A well-formed link table: every entry a list of length at least 3 (the
    `[id, from_node, from_slot, to_node, to_slot, type]` tuples). -/
def LinksWF (links : List JValue) : Prop :=
  ∀ l ∈ links, ∃ xs, l = JValue.arr xs ∧ 3 ≤ xs.length

/-- A node record well-formed for the API-format conversion: a dict with `id`
    and `type`, whose `inputs` (when present) is a list of well-formed input
    definitions and whose `widgets_values` (when present) is a list. -/
def ConvNodeWF (node : JValue) : Prop :=
  ∃ nObj, node = JValue.obj nObj ∧
    (olookup nObj "id").isSome ∧
    (olookup nObj "type").isSome ∧
    (olookup nObj "inputs" = none ∨
      ∃ defs, olookup nObj "inputs" = some (JValue.arr defs) ∧ InputDefsWF defs) ∧
    (olookup nObj "widgets_values" = none ∨
      ∃ ws, olookup nObj "widgets_values" = some (JValue.arr ws))

/-- A widget declaration inside an input of the flattener's node records:
    either no `widget` key, or a dict value holding a string `name`. -/
def WidgetEntryWF (inp : JValue) : Prop :=
  ∃ iObj, inp = JValue.obj iObj ∧
    ((olookup iObj "widget").isNone ∨
     ∃ wObj n, olookup iObj "widget" = some (JValue.obj wObj) ∧
       olookup wObj "name" = some (JValue.str n))

/-- A node record well-formed for the flattener: a dict whose `inputs` (when
    present) is a list of inputs with well-formed widget declarations. -/
def CleanNodeWF (node : JValue) : Prop :=
  ∃ nObj, node = JValue.obj nObj ∧
    (olookup nObj "inputs" = none ∨
      ∃ defs, olookup nObj "inputs" = some (JValue.arr defs) ∧ ∀ d ∈ defs, WidgetEntryWF d)

/-- Does an input carry a `widget` declaration (`"widget" in inp`)?  Total
    Boolean for dict inputs, `false` otherwise. -/
def hasWidgetKey : JValue → Bool
  | .obj dObj => dhasKey dObj "widget"
  | _ => false

/-- The flattener keeps a node iff its `widgets_values` is truthy or some
    input carries a `widget` declaration (`extract_configurable_values`
    returns a truthy dict exactly then). -/
def flattenerKeeps (nObj : Obj) : Bool :=
  pyTruthy (dgetD nObj "widgets_values" (JValue.arr [])) ||
    (inputDefsOf nObj).any hasWidgetKey

/-- `extract_configurable_values` with errors defaulted away (coincides with
    the fallible version on well-formed nodes). -/
def extractTotal (nObj : Obj) : Obj :=
  match extract_configurable_values nObj with
  | .ok cfg => cfg
  | .error _ => []

/-- The default title `f"{node_type}_{node_id}"` used by
    `clean_workflow_for_config` when a node has no `title`. -/
def cleanTitleOf (nObj : Obj) : JValue :=
  dgetD nObj "title"
    (JValue.str (pyStr (dget nObj "type") ++ "_" ++ pyStr (dget nObj "id")))

/-- The entry `clean_workflow_for_config` files for one node: `none` when the
    node has no configurable values, otherwise its key `str(node.get("id"))`
    and cleaned record. -/
def cleanEntryOf : JValue → Option (String × JValue)
  | .obj nObj =>
      let cfg := extractTotal nObj
      if cfg.isEmpty then none
      else some (pyStr (dget nObj "id"),
        JValue.obj [("type", dget nObj "type"), ("title", cleanTitleOf nObj),
                    ("configurable", JValue.obj cfg)])
  | _ => none

/-- Is a node record kept by the flattener (does `cleanEntryOf` file it)?
    On well-formed nodes this coincides with `flattenerKeeps`. -/
def nodeKept : JValue → Bool
  | .obj nObj => !(extractTotal nObj).isEmpty
  | _ => false

/-- The key `str(node.get("id"))` of a node in the flattener (total). -/
def cleanKeyStr : JValue → String
  | .obj nObj => pyStr (dget nObj "id")
  | _ => ""

/-- `int(s)` with the error defaulted away. -/
def pyIntTotal (s : String) : Int :=
  match pyIntOfString s with
  | .ok i => i
  | .error _ => 0

/-- The node-type group key `format_for_easy_editing` files an entry under
    (non-string `type` values group under their rendering, see the module
    comment). -/
def entryTypeKey (kv : String × JValue) : String :=
  match kv.2 with
  | .obj e => pyStr (dget e "type")
  | _ => ""

/-- The instance key `f"{node_id}_{node_title}".replace(" ", "_")`. -/
def entryInstKey (kv : String × JValue) : String :=
  match kv.2 with
  | .obj e => pyReplace (kv.1 ++ "_" ++ pyStr (dget e "title")) " " "_"
  | _ => ""

/-- The per-instance record `format_for_easy_editing` stores. -/
def fmtEntryOf (kv : String × JValue) : JValue :=
  match kv.2 with
  | .obj e => JValue.obj
      [("node_id", JValue.num (pyIntTotal kv.1)), ("title", dget e "title"),
       ("parameters", dget e "configurable")]
  | _ => JValue.null

/-- Lookup of one instance inside one node-type group of
    `configurable_parameters`. -/
def groupLookup (m : Obj) (t ik : String) : Option JValue :=
  match olookup m t with
  | some (JValue.obj g) => olookup g ik
  | _ => none

/-- Shape of the entries of `clean_workflow_for_config`'s `nodes` map: keys
    that render integers, values of the fixed three-field form with a dict
    `configurable`. -/
def CleanedMapShape (m : Obj) : Prop :=
  ∀ kv ∈ m, (∃ i : Int, kv.1 = intToDecString i) ∧
    ∃ t ti cfg, kv.2 =
      JValue.obj [("type", t), ("title", ti), ("configurable", JValue.obj cfg)]

/-- Shape of `configurable_parameters`: every group is a dict of instance
    records carrying `node_id`, `title` and a dict `parameters`. -/
def GroupsShape (m : Obj) : Prop :=
  ∀ kv ∈ m, ∃ g, kv.2 = JValue.obj g ∧
    ∀ e ∈ g, ∃ eo, e.2 = JValue.obj eo ∧
      (olookup eo "node_id").isSome ∧ (olookup eo "title").isSome ∧
      ∃ p, olookup eo "parameters" = some (JValue.obj p)

/-- Does a link tuple's first element equal the link id (`link[0] == link_id`)? -/
def linkMatches (link_id : JValue) (l : JValue) : Bool :=
  match l with
  | .arr xs =>
      match xs.get? 0 with
      | some l0 => pyEq l0 link_id
      | none => false
  | _ => false

/-- Is an input definition a linkless widget input (kept by `widgetInputsOf`)? -/
def isWidgetInput : JValue → Bool
  | .obj dObj => !(jIsNull (dget dObj "widget")) && jIsNull (dget dObj "link")
  | _ => false

/-- The claim's per-node property: every input carrying a non-null `link` is
    mapped, under its name, to `[str(from_node), from_slot]` taken from the
    first link tuple whose first element equals the link id. -/
def LinkedMapped (links : List JValue) (nObj : Obj) (api : Obj) : Prop :=
  ∀ d dObj, d ∈ inputDefsOf nObj → d = JValue.obj dObj →
    jIsNull (dget dObj "link") = false →
    ∀ xs, links.find? (linkMatches (dget dObj "link")) = some (JValue.arr xs) →
      olookup api (inputNameOf d) = some (JValue.arr
        [JValue.str (pyStr (xs.getD 1 JValue.null)), xs.getD 2 JValue.null])

/-- The API-prompt entry of one node, total (coincides with `convertNode` on
    well-formed nodes). -/
def convertEntryTotal (links : List JValue) (node : JValue) : String × JValue :=
  match convertNode links node with
  | .ok e => e
  | .error _ => ("", JValue.null)

/-- The predicate `str(instance.get('id')) == str(self.instance_id)` used by
    `get_instance_info`'s search, total over JSON values. -/
def instMatches (instance_id : String) : JValue → Bool
  | .obj kvs => pyStr (dget kvs "id") == instance_id
  | _ => false

/-- A `monitor` iteration is terminal when its parsed status is `READY` or
    `ERROR`. -/
def pollTerminal (o : PollOutcome) : Prop :=
  outcomeStatus o = some "READY" ∨ outcomeStatus o = some "ERROR"

/-- Example node for the conversion: a `CLIPTextEncode` with id 6, a linked
    `clip` input (link id 10) and one widget input `text` fed by a single
    widget value. -/
def c5Node : JValue :=
  JValue.obj
    [("id", JValue.num 6), ("type", JValue.str "CLIPTextEncode"),
     ("inputs", JValue.arr
       [JValue.obj [("name", JValue.str "clip"), ("link", JValue.num 10)],
        JValue.obj [("name", JValue.str "text"),
          ("widget", JValue.obj [("name", JValue.str "text")]),
          ("link", JValue.null)]]),
     ("widgets_values", JValue.arr [JValue.str "hello"])]

/-- Example link tuple `[10, 4, 1, 6, 0, "CLIP"]`: link 10 feeds node 6 from
    node 4, slot 1. -/
def c5Link : JValue :=
  JValue.arr [JValue.num 10, JValue.num 4, JValue.num 1, JValue.num 6,
    JValue.num 0, JValue.str "CLIP"]

/-- Example workflow dict holding the node and link above. -/
def c5Workflow : Obj :=
  [("nodes", JValue.arr [c5Node]), ("links", JValue.arr [c5Link])]

/-!
## Lemmas about the dict model and the `Except` monad
-/

@[simp] theorem except_ok_bind {α β : Type} (a : α) (f : α → Except String β) :
    (Except.ok a >>= f) = f a := rfl

@[simp] theorem except_error_bind {α β : Type} (e : String) (f : α → Except String β) :
    ((Except.error e : Except String α) >>= f) = Except.error e := rfl

@[simp] theorem except_pure_eq_ok {α : Type} (a : α) :
    (pure a : Except String α) = Except.ok a := rfl

theorem olookup_oset_self (d : Obj) (k : String) (v : JValue) :
    olookup (oset d k v) k = some v := by
  induction d with
  | nil => simp [oset, olookup]
  | cons kv rest ih =>
      obtain ⟨k0, v0⟩ := kv
      by_cases h : k0 = k
      · simp [oset, olookup, h]
      · simp [oset, olookup, h, ih]

theorem olookup_oset_ne (d : Obj) (k k' : String) (v : JValue) (h : k' ≠ k) :
    olookup (oset d k v) k' = olookup d k' := by
  induction d with
  | nil => simp [oset, olookup, Ne.symm h]
  | cons kv rest ih =>
      obtain ⟨k0, v0⟩ := kv
      by_cases h0 : k0 = k
      · subst h0
        have : ¬ k0 = k' := fun e => h (e.symm)
        simp [oset, olookup, this]
      · simp [oset, olookup, h0, ih]

theorem oset_ne_nil (d : Obj) (k : String) (v : JValue) : oset d k v ≠ [] := by
  cases d with
  | nil => simp [oset]
  | cons kv rest =>
      obtain ⟨k0, v0⟩ := kv
      by_cases h : k0 = k <;> simp [oset, h]

/-!
## C6 — stderr classification in `execute_remote_script`
-/

/-- C6: when the remote status script runs but exits nonzero,
    `execute_remote_script` returns (rather than raises) a status string
    chosen by a substring cascade over the lowercased stderr: `SSH_NOT_READY`
    for connection-refused / no-route; otherwise `SSH_AUTH_ERROR` for
    permission-denied / publickey; otherwise `SSH_NOT_READY` for
    timeout / timed-out / banner-exchange; otherwise `SSH_ERROR`; and a
    subprocess timeout yields `SSH_NOT_READY`, a missing ssh client
    `SSH_ERROR`. -/
theorem execute_remote_script_classification (r : RunResult)
    (hne : ¬ r.returncode = 0) :
    ((strContains (pyLower r.stderr) "connection refused" = true ∨
      strContains (pyLower r.stderr) "no route to host" = true) →
      execute_remote_script true (SSHOutcome.completed r) =
        "STATUS: SSH_NOT_READY\\nDETAILS: SSH service not available") ∧
    (strContains (pyLower r.stderr) "connection refused" = false →
     strContains (pyLower r.stderr) "no route to host" = false →
     (strContains (pyLower r.stderr) "permission denied" = true ∨
      strContains (pyLower r.stderr) "publickey" = true) →
      execute_remote_script true (SSHOutcome.completed r) =
        "STATUS: SSH_AUTH_ERROR\\nDETAILS: SSH key not authorized") ∧
    (strContains (pyLower r.stderr) "connection refused" = false →
     strContains (pyLower r.stderr) "no route to host" = false →
     strContains (pyLower r.stderr) "permission denied" = false →
     strContains (pyLower r.stderr) "publickey" = false →
     (strContains (pyLower r.stderr) "timeout" = true ∨
      strContains (pyLower r.stderr) "timed out" = true ∨
      strContains (pyLower r.stderr) "banner exchange" = true) →
      execute_remote_script true (SSHOutcome.completed r) =
        "STATUS: SSH_NOT_READY\\nDETAILS: Connection timeout") ∧
    (strContains (pyLower r.stderr) "connection refused" = false →
     strContains (pyLower r.stderr) "no route to host" = false →
     strContains (pyLower r.stderr) "permission denied" = false →
     strContains (pyLower r.stderr) "publickey" = false →
     strContains (pyLower r.stderr) "timeout" = false →
     strContains (pyLower r.stderr) "timed out" = false →
     strContains (pyLower r.stderr) "banner exchange" = false →
      execute_remote_script true (SSHOutcome.completed r) =
        "STATUS: SSH_ERROR\\nDETAILS: " ++ r.stderr) ∧
    execute_remote_script true SSHOutcome.timedOut =
      "STATUS: SSH_NOT_READY\\nDETAILS: SSH connection timeout" ∧
    execute_remote_script true SSHOutcome.sshMissing =
      "STATUS: SSH_ERROR\\nDETAILS: SSH client not installed" := by
  have hbeq : (r.returncode == 0) = false := by
    simp [hne]
  refine ⟨?_, ?_, ?_, ?_, rfl, rfl⟩
  · rintro (h | h) <;> simp [execute_remote_script, hbeq, h]
  · intro h1 h2 h3
    rcases h3 with h3 | h3 <;> simp [execute_remote_script, hbeq, h1, h2, h3]
  · intro h1 h2 h3 h4 h5
    rcases h5 with h5 | h5 | h5 <;>
      simp [execute_remote_script, hbeq, h1, h2, h3, h4, h5]
  · intro h1 h2 h3 h4 h5 h6 h7
    simp [execute_remote_script, hbeq, h1, h2, h3, h4, h5, h6, h7]

/-- Witness for C6 at a concrete failing run. -/
theorem execute_remote_script_classification_witness :
    (¬ (255 : Int) = 0) ∧
    execute_remote_script true
      (SSHOutcome.completed ⟨255, "", "ssh: connect to host h port 23: Connection refused"⟩) =
      "STATUS: SSH_NOT_READY\\nDETAILS: SSH service not available" :=
  ⟨by decide,
   (execute_remote_script_classification
      ⟨255, "", "ssh: connect to host h port 23: Connection refused"⟩
      (by decide)).1 (Or.inl (by decide))⟩

/-!
## C8 — `get_instance_info`
-/

theorem findInstance_eq_find (instance_id : String) (xs : List JValue)
    (hobjs : ∀ v ∈ xs, ∃ kvs, v = JValue.obj kvs) :
    findInstance instance_id xs = .ok (xs.find? (instMatches instance_id)) := by
  induction xs with
  | nil => rfl
  | cons v rest ih =>
      obtain ⟨kvs, rfl⟩ := hobjs v (List.mem_cons_self v rest)
      have hrest := ih (fun w hw => hobjs w (List.mem_cons_of_mem _ hw))
      by_cases h : pyStr (dget kvs "id") = instance_id
      · have hb : instMatches instance_id (JValue.obj kvs) = true := by
          simp [instMatches, h]
        simp [findInstance, asObj, h, List.find?, hb]
      · have hb : instMatches instance_id (JValue.obj kvs) = false := by
          simp [instMatches, h]
        simp [findInstance, asObj, h, List.find?, hb, hrest]

/-- C8: `get_instance_info` sends a bearer-token-authenticated GET to the
    Vast.ai instances endpoint; a caught request exception yields `None`; on
    success it returns the first instance record whose stringified `id`
    equals the stringified monitor instance id, and `None` when no record
    matches (`List.find?` returns `none` exactly then). -/
theorem get_instance_info_selection (api_key instance_id msg : String)
    (dObj : Obj) (xs : List JValue)
    (hx : dgetD dObj "instances" (JValue.arr []) = JValue.arr xs)
    (hobjs : ∀ v ∈ xs, ∃ kvs, v = JValue.obj kvs) :
    instanceRequest api_key =
      ("https://console.vast.ai/api/v0/instances/",
       ("Authorization", "Bearer " ++ api_key)) ∧
    get_instance_info instance_id (HttpResult.requestError msg) = .ok none ∧
    get_instance_info instance_id (HttpResult.success (JValue.obj dObj)) =
      .ok (xs.find? (instMatches instance_id)) := by
  refine ⟨rfl, rfl, ?_⟩
  simp [get_instance_info, asObj, hx, pyIterate,
        findInstance_eq_find instance_id xs hobjs]

/-- Witness for C8 at a concrete two-instance response. -/
theorem get_instance_info_selection_witness :
    dgetD [("instances",
            JValue.arr [JValue.obj [("id", JValue.num 7)],
                        JValue.obj [("id", JValue.num 12345)]])]
      "instances" (JValue.arr []) =
      JValue.arr [JValue.obj [("id", JValue.num 7)],
                  JValue.obj [("id", JValue.num 12345)]] ∧
    get_instance_info "12345"
      (HttpResult.success (JValue.obj
        [("instances",
          JValue.arr [JValue.obj [("id", JValue.num 7)],
                      JValue.obj [("id", JValue.num 12345)]])])) =
      .ok ([JValue.obj [("id", JValue.num 7)],
            JValue.obj [("id", JValue.num 12345)]].find? (instMatches "12345")) :=
  ⟨rfl,
   (get_instance_info_selection "k" "12345" ""
      [("instances",
        JValue.arr [JValue.obj [("id", JValue.num 7)],
                    JValue.obj [("id", JValue.num 12345)]])]
      [JValue.obj [("id", JValue.num 7)], JValue.obj [("id", JValue.num 12345)]]
      rfl
      (by intro v hv
          simp only [List.mem_cons, List.not_mem_nil, or_false] at hv
          rcases hv with rfl | rfl
          · exact ⟨_, rfl⟩
          · exact ⟨_, rfl⟩)).2.2⟩

/-!
## C9 — `get_ssh_info` and the port + 1 workaround
-/

/-- C9 counterexample: an instance record that carries `ssh_host` (with the
    falsy value `""`) and a truthy `ssh_port`, yet `get_ssh_info` returns
    `None` rather than any connection descriptor. -/
theorem get_ssh_info_empty_host_cex :
    get_ssh_info (some (JValue.obj
      [("actual_status", JValue.str "running"),
       ("ssh_host", JValue.str ""),
       ("ssh_port", JValue.num 22)])) = .ok none ∧
    ∀ info : JValue,
      get_ssh_info (some (JValue.obj
        [("actual_status", JValue.str "running"),
         ("ssh_host", JValue.str ""),
         ("ssh_port", JValue.num 22)])) ≠ .ok (some info) :=
  ⟨rfl, fun _ h => Option.noConfusion (Except.ok.inj h)⟩

/-- C9 (amended): for a record whose `actual_status` is `running` with a
    truthy `ssh_host` and a truthy positive numeric `ssh_port`, the returned
    descriptor's port is the API-reported port plus one (never the reported
    port); `None` instance data and records whose status is not `running`
    yield `None`. -/
theorem get_ssh_info_port_plus_one (d : Obj) (hostV : JValue) (n : Int)
    (hstat : dgetD d "actual_status" (JValue.str "unknown") = JValue.str "running")
    (hhost : dget d "ssh_host" = hostV) (htr : pyTruthy hostV = true)
    (hport : dget d "ssh_port" = JValue.num n) (hn : 0 < n) :
    get_ssh_info (some (JValue.obj d)) =
      .ok (some (JValue.obj
        [("host", hostV), ("port", JValue.num (n + 1)),
         ("status", JValue.str "running")])) ∧
    JValue.num (n + 1) ≠ JValue.num n ∧
    get_ssh_info none = .ok none ∧
    (∀ d2 : Obj,
      pyEq (dgetD d2 "actual_status" (JValue.str "unknown")) (JValue.str "running") = false →
      get_ssh_info (some (JValue.obj d2)) = .ok none) := by
  refine ⟨?_, ?_, rfl, ?_⟩
  · have hdne : d ≠ [] := by
      intro e
      rw [e] at hport
      simp [dget, olookup] at hport
    have htrd : pyTruthy (JValue.obj d) = true := by
      simp [pyTruthy, List.isEmpty_iff, hdne]
    have hrun : pyEq (JValue.str "running") (JValue.str "running") = true := by
      simp [pyEq]
    have hn1 : pyTruthy (JValue.num n) = true := by
      simp [pyTruthy, bne_iff_ne]; omega
    have hn2 : pyTruthy (JValue.num (n + 1)) = true := by
      simp [pyTruthy, bne_iff_ne]; omega
    simp [get_ssh_info, htrd, asObj, hstat, hrun, hhost, hport, htr, hn1, hn2,
          pyNumVal]
  · intro h
    have := JValue.num.inj h
    omega
  · intro d2 h2
    by_cases htr2 : pyTruthy (JValue.obj d2) = true
    · simp [get_ssh_info, htr2, asObj, h2]
    · simp only [Bool.not_eq_true] at htr2
      simp [get_ssh_info, htr2]

/-- Witness for C9's amended theorem at a concrete running instance. -/
theorem get_ssh_info_port_plus_one_witness :
    dgetD [("actual_status", JValue.str "running"),
           ("ssh_host", JValue.str "ssh5.vast.ai"), ("ssh_port", JValue.num 22)]
      "actual_status" (JValue.str "unknown") = JValue.str "running" ∧
    pyTruthy (JValue.str "ssh5.vast.ai") = true ∧
    (0 : Int) < 22 ∧
    get_ssh_info (some (JValue.obj
      [("actual_status", JValue.str "running"),
       ("ssh_host", JValue.str "ssh5.vast.ai"), ("ssh_port", JValue.num 22)])) =
      .ok (some (JValue.obj
        [("host", JValue.str "ssh5.vast.ai"), ("port", JValue.num 23),
         ("status", JValue.str "running")])) :=
  ⟨rfl, rfl, by decide,
   (get_ssh_info_port_plus_one
      [("actual_status", JValue.str "running"),
       ("ssh_host", JValue.str "ssh5.vast.ai"), ("ssh_port", JValue.num 22)]
      (JValue.str "ssh5.vast.ai") 22 rfl rfl rfl rfl (by decide)).1⟩

/-!
## C10 — `modify_workflow` frame conditions
-/

theorem updateNodeInput_absent (wf : Obj) (nid nm : String) (v : JValue)
    (h : olookup wf nid = none) :
    updateNodeInput wf nid nm v = .ok wf := by
  simp [updateNodeInput, h]

theorem updateNodeInput_present (wf : Obj) (nid nm : String) (v : JValue)
    (no io : Obj)
    (hn : olookup wf nid = some (JValue.obj no))
    (hi : olookup no "inputs" = some (JValue.obj io)) :
    updateNodeInput wf nid nm v =
      .ok (oset wf nid (JValue.obj (oset no "inputs" (JValue.obj (oset io nm v))))) := by
  simp [updateNodeInput, hn, asObj, oindex, hi]

/-- C10: `modify_workflow` returns the workflow with at most the `text` input
    of the `prompt_node_id` node and the `image` input of the `image_node_id`
    node changed; every other node, every other input of those two nodes, and
    every other entry of those nodes is unchanged, and an absent node id
    leaves its part of the workflow untouched. -/
theorem modify_workflow_frame (m : Obj) (p i img txt : String) (hpi : p ≠ i)
    (hp : olookup m p = none ∨
      ∃ np ip, olookup m p = some (JValue.obj np) ∧
        olookup np "inputs" = some (JValue.obj ip))
    (hi : olookup m i = none ∨
      ∃ ni ii, olookup m i = some (JValue.obj ni) ∧
        olookup ni "inputs" = some (JValue.obj ii)) :
    ∃ m2, modify_workflow (JValue.obj m) img txt p i = .ok (JValue.obj m2) ∧
      (∀ q, q ≠ p → q ≠ i → olookup m2 q = olookup m q) ∧
      (olookup m p = none → olookup m2 p = olookup m p) ∧
      (olookup m i = none → olookup m2 i = olookup m i) ∧
      (∀ np ip, olookup m p = some (JValue.obj np) →
        olookup np "inputs" = some (JValue.obj ip) →
        ∃ np2 ip2, olookup m2 p = some (JValue.obj np2) ∧
          (∀ k, k ≠ "inputs" → olookup np2 k = olookup np k) ∧
          olookup np2 "inputs" = some (JValue.obj ip2) ∧
          olookup ip2 "text" = some (JValue.str txt) ∧
          (∀ k, k ≠ "text" → olookup ip2 k = olookup ip k)) ∧
      (∀ ni ii, olookup m i = some (JValue.obj ni) →
        olookup ni "inputs" = some (JValue.obj ii) →
        ∃ ni2 ii2, olookup m2 i = some (JValue.obj ni2) ∧
          (∀ k, k ≠ "inputs" → olookup ni2 k = olookup ni k) ∧
          olookup ni2 "inputs" = some (JValue.obj ii2) ∧
          olookup ii2 "image" = some (JValue.str img) ∧
          (∀ k, k ≠ "image" → olookup ii2 k = olookup ii k)) := by
  -- first update (the prompt node)
  obtain ⟨wf1, hw1, hw1p, hw1other⟩ :
      ∃ wf1, updateNodeInput m p "text" (JValue.str txt) = .ok wf1 ∧
        (olookup m p = none → wf1 = m) ∧
        (∀ q, q ≠ p → olookup wf1 q = olookup m q) := by
    rcases hp with h | ⟨np, ip, hn, hin⟩
    · exact ⟨m, updateNodeInput_absent m p "text" _ h, fun _ => rfl, fun _ _ => rfl⟩
    · refine ⟨_, updateNodeInput_present m p "text" _ np ip hn hin, ?_, ?_⟩
      · intro h; rw [h] at hn; cases hn
      · intro q hq; exact olookup_oset_ne _ _ _ _ hq
  -- second update (the image node)
  have hw1i : olookup wf1 i = olookup m i := hw1other i (Ne.symm hpi)
  obtain ⟨wf2, hw2, hw2i, hw2other⟩ :
      ∃ wf2, updateNodeInput wf1 i "image" (JValue.str img) = .ok wf2 ∧
        (olookup m i = none → wf2 = wf1) ∧
        (∀ q, q ≠ i → olookup wf2 q = olookup wf1 q) := by
    rcases hi with h | ⟨ni, ii, hn, hin⟩
    · exact ⟨wf1, updateNodeInput_absent wf1 i "image" _ (hw1i.trans h),
        fun _ => rfl, fun _ _ => rfl⟩
    · refine ⟨_, updateNodeInput_present wf1 i "image" _ ni ii (hw1i.trans hn) hin, ?_, ?_⟩
      · intro h; rw [h] at hn; cases hn
      · intro q hq; exact olookup_oset_ne _ _ _ _ hq
  refine ⟨wf2, ?_, ?_, ?_, ?_, ?_, ?_⟩
  · simp [modify_workflow, asObj, hw1, hw2]
  · intro q hqp hqi
    rw [hw2other q hqi, hw1other q hqp]
  · intro h
    rw [hw2other p hpi, hw1p h, h]
  · intro h
    rw [hw2i h, hw1i, h]
  · intro np ip hn hin
    rcases hp with h | ⟨np', ip', hn', hin'⟩
    · rw [h] at hn; cases hn
    · rw [hn'] at hn
      have hnp : np' = np := by simpa using hn
      subst hnp
      have hip : ip' = ip := by
        rw [hin'] at hin
        simpa using hin
      subst hip
      have h1 : updateNodeInput m p "text" (JValue.str txt) =
          .ok (oset m p (JValue.obj (oset np' "inputs" (JValue.obj (oset ip' "text" (JValue.str txt)))))) :=
        updateNodeInput_present m p "text" _ np' ip' hn' hin'
      rw [hw1] at h1
      injection h1 with h1
      refine ⟨oset np' "inputs" (JValue.obj (oset ip' "text" (JValue.str txt))),
              oset ip' "text" (JValue.str txt), ?_, ?_, ?_, ?_, ?_⟩
      · rw [hw2other p hpi, h1]
        exact olookup_oset_self m p _
      · intro k hk; exact olookup_oset_ne _ _ _ _ hk
      · exact olookup_oset_self np' "inputs" _
      · exact olookup_oset_self ip' "text" _
      · intro k hk; exact olookup_oset_ne _ _ _ _ hk
  · intro ni ii hn hin
    rcases hi with h | ⟨ni', ii', hn', hin'⟩
    · rw [h] at hn; cases hn
    · rw [hn'] at hn
      have hni : ni' = ni := by simpa using hn
      subst hni
      have hii : ii' = ii := by
        rw [hin'] at hin
        simpa using hin
      subst hii
      have h2 : updateNodeInput wf1 i "image" (JValue.str img) =
          .ok (oset wf1 i (JValue.obj (oset ni' "inputs" (JValue.obj (oset ii' "image" (JValue.str img)))))) :=
        updateNodeInput_present wf1 i "image" _ ni' ii' (hw1i.trans hn') hin'
      rw [hw2] at h2
      injection h2 with h2
      refine ⟨oset ni' "inputs" (JValue.obj (oset ii' "image" (JValue.str img))),
              oset ii' "image" (JValue.str img), ?_, ?_, ?_, ?_, ?_⟩
      · rw [h2]
        exact olookup_oset_self wf1 i _
      · intro k hk; exact olookup_oset_ne _ _ _ _ hk
      · exact olookup_oset_self ni' "inputs" _
      · exact olookup_oset_self ii' "image" _
      · intro k hk; exact olookup_oset_ne _ _ _ _ hk

/-- Witness for C10 on a tiny concrete workflow (prompt node present, image
    node absent). -/
theorem modify_workflow_frame_witness :
    ("6" : String) ≠ "62" ∧
    (∃ np ip,
      olookup [("6", JValue.obj [("class_type", JValue.str "CLIPTextEncode"),
                                 ("inputs", JValue.obj [("text", JValue.str "old")])])]
        "6" = some (JValue.obj np) ∧
      olookup np "inputs" = some (JValue.obj ip)) ∧
    ∃ m2, modify_workflow
        (JValue.obj [("6", JValue.obj [("class_type", JValue.str "CLIPTextEncode"),
                                       ("inputs", JValue.obj [("text", JValue.str "old")])])])
        "cat.png" "new prompt" "6" "62" = .ok (JValue.obj m2) ∧
      (∀ q, q ≠ "6" → q ≠ "62" →
        olookup m2 q =
          olookup [("6", JValue.obj [("class_type", JValue.str "CLIPTextEncode"),
                                     ("inputs", JValue.obj [("text", JValue.str "old")])])] q) := by
  refine ⟨by decide,
    ⟨[("class_type", JValue.str "CLIPTextEncode"),
      ("inputs", JValue.obj [("text", JValue.str "old")])],
     [("text", JValue.str "old")], rfl, rfl⟩, ?_⟩
  obtain ⟨m2, h1, h2, -⟩ :=
    modify_workflow_frame
      [("6", JValue.obj [("class_type", JValue.str "CLIPTextEncode"),
                         ("inputs", JValue.obj [("text", JValue.str "old")])])]
      "6" "62" "cat.png" "new prompt" (by decide)
      (Or.inr ⟨[("class_type", JValue.str "CLIPTextEncode"),
                ("inputs", JValue.obj [("text", JValue.str "old")])],
               [("text", JValue.str "old")], rfl, rfl⟩)
      (Or.inl rfl)
  exact ⟨m2, h1, h2⟩

/-!
## C1 / C2 — `map_widget_values_to_inputs`
-/

theorem widgetNamesLoop_length (ws : List Obj) (names : List String)
    (h : widgetNamesLoop ws = .ok names) : names.length = ws.length := by
  induction ws generalizing names with
  | nil =>
      simp [widgetNamesLoop] at h
      simp [← h]
  | cons d rest ih =>
      cases hov : oindex d "name" with
      | error e => rw [widgetNamesLoop] at h; simp [hov] at h
      | ok v =>
          cases hos : asStr v with
          | error e => rw [widgetNamesLoop] at h; simp [hov, hos] at h
          | ok n =>
              cases hrest : widgetNamesLoop rest with
              | error e => rw [widgetNamesLoop] at h; simp [hov, hos, hrest] at h
              | ok ns =>
                  rw [widgetNamesLoop] at h
                  simp [hov, hos, hrest] at h
                  rw [← h]
                  simp [ih ns hrest]

theorem demandNames_ok (ws : List Obj) (names : List String)
    (h : widgetNamesLoop ws = .ok names) : ∃ vs, demandNames ws = .ok vs := by
  induction ws generalizing names with
  | nil => exact ⟨[], rfl⟩
  | cons d rest ih =>
      cases hov : oindex d "name" with
      | error e => rw [widgetNamesLoop] at h; simp [hov] at h
      | ok v =>
          cases hos : asStr v with
          | error e => rw [widgetNamesLoop] at h; simp [hov, hos] at h
          | ok n =>
              cases hrest : widgetNamesLoop rest with
              | error e => rw [widgetNamesLoop] at h; simp [hov, hos, hrest] at h
              | ok ns =>
                  obtain ⟨vs, hvs⟩ := ih ns hrest
                  exact ⟨v :: vs, by simp [demandNames, hov, hvs]⟩

theorem mapSimpleLoop_lookup (values : List JValue) (ws : List Obj)
    (names : List String) (i : Nat) (acc : Obj)
    (h : widgetNamesLoop ws = .ok names)
    (hbound : i + ws.length ≤ values.length)
    (hnodup : names.Nodup) :
    ∃ m, mapSimpleLoop values ws i acc = .ok m ∧
      (∀ j, j < names.length →
        olookup m (names.getD j "") = some (values.getD (i + j) JValue.null)) ∧
      (∀ k, k ∉ names → olookup m k = olookup acc k) := by
  induction ws generalizing names i acc with
  | nil =>
      simp [widgetNamesLoop] at h
      subst h
      exact ⟨acc, rfl, by simp, fun k _ => rfl⟩
  | cons d rest ih =>
      cases hov : oindex d "name" with
      | error e => rw [widgetNamesLoop] at h; simp [hov] at h
      | ok v =>
          cases hos : asStr v with
          | error e => rw [widgetNamesLoop] at h; simp [hov, hos] at h
          | ok n =>
              cases hrest : widgetNamesLoop rest with
              | error e => rw [widgetNamesLoop] at h; simp [hov, hos, hrest] at h
              | ok ns =>
                  rw [widgetNamesLoop] at h
                  simp [hov, hos, hrest] at h
                  subst h
                  have hi : i < values.length := by
                    simp at hbound; omega
                  have hnd : n ∉ ns := by
                    simp [List.nodup_cons] at hnodup
                    exact hnodup.1
                  have hnodup' : ns.Nodup := by
                    simp [List.nodup_cons] at hnodup
                    exact hnodup.2
                  obtain ⟨m, hm, hlook, hout⟩ :=
                    ih ns (i + 1) (oset acc n (values.get ⟨i, hi⟩)) hrest
                      (by simp at hbound ⊢; omega) hnodup'
                  refine ⟨m, ?_, ?_, ?_⟩
                  · rw [mapSimpleLoop, dif_pos hi]
                    simp only [hov, hos, except_ok_bind]
                    simpa using hm
                  · intro j hj
                    cases j with
                    | zero =>
                        simp only [List.getD_cons_zero, Nat.add_zero]
                        rw [hout n hnd, olookup_oset_self]
                        rw [List.getD_eq_getElem values JValue.null hi]
                        simp
                    | succ j' =>
                        simp only [List.getD_cons_succ]
                        have hstep := hlook j' (by simpa using hj)
                        have harith : i + 1 + j' = i + (j' + 1) := by omega
                        rw [harith] at hstep
                        exact hstep
                  · intro k hk
                    simp at hk
                    rw [hout k hk.2, olookup_oset_ne _ _ _ _ hk.1]

/-- C1: when the widget-values list has exactly as many entries as the
    linkless widget inputs, `map_widget_values_to_inputs` returns the mapping
    sending the i-th widget input's name to the i-th widget value (and
    nothing else). -/
theorem map_widget_values_matched_counts (inputs_config values : List JValue)
    (names : List String)
    (hnames : widgetNamesOf inputs_config = .ok names)
    (hlen : values.length = names.length)
    (hnodup : names.Nodup) :
    ∃ m, map_widget_values_to_inputs values inputs_config = .ok m ∧
      (∀ j, j < names.length →
        olookup m (names.getD j "") = some (values.getD j JValue.null)) ∧
      (∀ k, k ∉ names → olookup m k = none) := by
  cases hws : widgetInputsOf inputs_config with
  | error e => rw [widgetNamesOf, hws] at hnames; simp at hnames
  | ok ws =>
      rw [widgetNamesOf, hws] at hnames
      simp at hnames
      have hwlen : names.length = ws.length := widgetNamesLoop_length ws names hnames
      obtain ⟨m, hm, hlook, hout⟩ :=
        mapSimpleLoop_lookup values ws names 0 [] hnames (by omega) hnodup
      refine ⟨m, ?_, ?_, ?_⟩
      · rw [map_widget_values_to_inputs, hws]
        have : ¬ ws.length < values.length := by omega
        simp [this, hm]
      · intro j hj
        simpa using hlook j hj
      · intro k hk
        rw [hout k hk]
        rfl

/-- Witness for C1 on a node with two widget inputs and two values. -/
theorem map_widget_values_matched_counts_witness :
    widgetNamesOf
      [JValue.obj [("name", JValue.str "seed"),
                   ("widget", JValue.obj [("name", JValue.str "seed")])],
       JValue.obj [("name", JValue.str "steps"),
                   ("widget", JValue.obj [("name", JValue.str "steps")]),
                   ("link", JValue.null)]] = .ok ["seed", "steps"] ∧
    ([JValue.num 42, JValue.num 20] : List JValue).length = (["seed", "steps"] : List String).length ∧
    (["seed", "steps"] : List String).Nodup ∧
    ∃ m, map_widget_values_to_inputs [JValue.num 42, JValue.num 20]
        [JValue.obj [("name", JValue.str "seed"),
                     ("widget", JValue.obj [("name", JValue.str "seed")])],
         JValue.obj [("name", JValue.str "steps"),
                     ("widget", JValue.obj [("name", JValue.str "steps")]),
                     ("link", JValue.null)]] = .ok m ∧
      (∀ j, j < (["seed", "steps"] : List String).length →
        olookup m ((["seed", "steps"] : List String).getD j "") =
          some (([JValue.num 42, JValue.num 20] : List JValue).getD j JValue.null)) ∧
      (∀ k, k ∉ (["seed", "steps"] : List String) → olookup m k = none) :=
  ⟨rfl, rfl, by decide,
   map_widget_values_matched_counts _ _ ["seed", "steps"] rfl rfl (by decide)⟩

theorem mapExtraLoop_eq_skipCursor (values : List JValue) (ws : List Obj)
    (names : List String) (idx : Nat) (acc : Obj)
    (h : widgetNamesLoop ws = .ok names) :
    mapExtraLoop values ws idx acc = .ok (skipCursorMap values names idx acc) := by
  induction ws generalizing names idx acc with
  | nil =>
      simp [widgetNamesLoop] at h
      subst h
      rfl
  | cons d rest ih =>
      cases hov : oindex d "name" with
      | error e => rw [widgetNamesLoop] at h; simp [hov] at h
      | ok v =>
          cases hos : asStr v with
          | error e => rw [widgetNamesLoop] at h; simp [hov, hos] at h
          | ok n =>
              cases hrest : widgetNamesLoop rest with
              | error e => rw [widgetNamesLoop] at h; simp [hov, hos, hrest] at h
              | ok ns =>
                  rw [widgetNamesLoop] at h
                  simp [hov, hos, hrest] at h
                  subst h
                  rw [mapExtraLoop, skipCursorMap]
                  simp only [hov, hos, except_ok_bind]
                  by_cases hidx : idx < values.length
                  · rw [dif_pos hidx, dif_pos hidx]
                    by_cases hw : value_seems_wrong_for_input n (values.get ⟨idx, hidx⟩)
                    · simp only [hw, if_pos]
                      exact ih ns _ _ hrest
                    · simp only [hw, if_neg, Bool.false_eq_true, not_false_iff]
                      exact ih ns _ _ hrest
                  · rw [dif_neg hidx, dif_neg hidx]
                    exact ih ns _ _ hrest

/-- C2: with more widget values than linkless widget inputs,
    `map_widget_values_to_inputs` returns without raising and equals the
    cursor mapping that skips the current value (using the next one instead)
    exactly when `_value_seems_wrong_for_input` flags it; in particular for
    `steps` exactly the strings `randomize` and `fixed` are flagged, and for
    `sampler_name` every numeric value is flagged while no string is. -/
theorem map_widget_values_extra_skips (inputs_config values : List JValue)
    (names : List String)
    (hnames : widgetNamesOf inputs_config = .ok names)
    (hlonger : names.length < values.length) :
    map_widget_values_to_inputs values inputs_config =
      .ok (skipCursorMap values names 0 []) ∧
    (∀ v : JValue, value_seems_wrong_for_input "steps" v = true ↔
      (v = JValue.str "randomize" ∨ v = JValue.str "fixed")) ∧
    (∀ n : Int, value_seems_wrong_for_input "sampler_name" (JValue.num n) = true) ∧
    (∀ s : String, value_seems_wrong_for_input "sampler_name" (JValue.str s) = false) := by
  refine ⟨?_, ?_, ?_, ?_⟩
  · cases hws : widgetInputsOf inputs_config with
    | error e => rw [widgetNamesOf, hws] at hnames; simp at hnames
    | ok ws =>
        rw [widgetNamesOf, hws] at hnames
        simp at hnames
        have hwlen : names.length = ws.length := widgetNamesLoop_length ws names hnames
        obtain ⟨vs, hvs⟩ := demandNames_ok ws names hnames
        rw [map_widget_values_to_inputs, hws]
        have hlt : ws.length < values.length := by omega
        simp [hlt, hvs, mapExtraLoop_eq_skipCursor values ws names 0 [] hnames]
  · intro v
    cases v <;> simp [value_seems_wrong_for_input, pyNumVal]
  · intro n; rfl
  · intro s; rfl

/-- Witness for C2: three values against two widget inputs, with `steps`
    skipping a flagged `randomize`. -/
theorem map_widget_values_extra_skips_witness :
    widgetNamesOf
      [JValue.obj [("name", JValue.str "steps"),
                   ("widget", JValue.obj [("name", JValue.str "steps")])],
       JValue.obj [("name", JValue.str "sampler_name"),
                   ("widget", JValue.obj [("name", JValue.str "sampler_name")])]] =
      .ok ["steps", "sampler_name"] ∧
    (["steps", "sampler_name"] : List String).length <
      ([JValue.str "randomize", JValue.num 20, JValue.str "euler"] : List JValue).length ∧
    map_widget_values_to_inputs
      [JValue.str "randomize", JValue.num 20, JValue.str "euler"]
      [JValue.obj [("name", JValue.str "steps"),
                   ("widget", JValue.obj [("name", JValue.str "steps")])],
       JValue.obj [("name", JValue.str "sampler_name"),
                   ("widget", JValue.obj [("name", JValue.str "sampler_name")])]] =
      .ok (skipCursorMap
            [JValue.str "randomize", JValue.num 20, JValue.str "euler"]
            ["steps", "sampler_name"] 0 []) :=
  ⟨rfl, by decide,
   (map_widget_values_extra_skips
      [JValue.obj [("name", JValue.str "steps"),
                   ("widget", JValue.obj [("name", JValue.str "steps")])],
       JValue.obj [("name", JValue.str "sampler_name"),
                   ("widget", JValue.obj [("name", JValue.str "sampler_name")])]]
      [JValue.str "randomize", JValue.num 20, JValue.str "euler"]
      ["steps", "sampler_name"] rfl (by decide)).1⟩

/-!
## C7 — the `monitor` polling loop
-/

theorem monitorAux_characterization (f : Nat → PollOutcome) (T p : Nat)
    (hp : 1 ≤ p) :
    ∀ (fuel k : Nat), T ≤ k + fuel →
      (monitorAux f T p fuel k = true ↔
        ∃ j, k ≤ j ∧ j * p < T ∧ outcomeStatus (f j) = some "READY" ∧
          ∀ i, k ≤ i → i < j → ¬ pollTerminal (f i)) := by
  intro fuel
  induction fuel with
  | zero =>
      intro k hk
      constructor
      · intro h; simp [monitorAux] at h
      · rintro ⟨j, hkj, hjp, -, -⟩
        have : j ≤ j * p := Nat.le_mul_of_pos_right j (by omega)
        omega
  | succ fuel ih =>
      intro k hk
      rw [monitorAux]
      by_cases hcond : k * p < T
      · rw [if_pos hcond]
        cases hst : outcomeStatus (f k) with
        | none =>
            rw [ih (k + 1) (by omega)]
            constructor
            · rintro ⟨j, hkj, hjp, hr, hni⟩
              refine ⟨j, by omega, hjp, hr, fun i hi hij => ?_⟩
              rcases Nat.eq_or_lt_of_le hi with h | h
              · subst h
                simp [pollTerminal, hst]
              · exact hni i h hij
            · rintro ⟨j, hkj, hjp, hr, hni⟩
              have hjk : k ≠ j := by
                intro e; rw [← e, hst] at hr; cases hr
              exact ⟨j, by omega, hjp, hr, fun i hi hij => hni i (by omega) hij⟩
        | some s =>
            by_cases hready : s = "READY"
            · subst hready
              constructor
              · intro _
                exact ⟨k, le_refl k, hcond, hst,
                  fun i hi hij => absurd (lt_of_le_of_lt hi hij) (lt_irrefl k)⟩
              · intro _; rfl
            · have hbeq : (s == "READY") = false := by
                simp [hready]
              by_cases herr : s = "ERROR"
              · subst herr
                simp only [hbeq, Bool.false_eq_true, if_false]
                have hb : ("ERROR" == "ERROR") = true := rfl
                simp only [hb, if_true]
                constructor
                · intro h; cases h
                · rintro ⟨j, hkj, hjp, hr, hni⟩
                  have hjk : k ≠ j := by
                    intro e
                    rw [← e, hst] at hr
                    exact hready (by injection hr)
                  exact absurd (Or.inr hst)
                    (hni k (le_refl k) (by omega))
              · have hbeq2 : (s == "ERROR") = false := by
                  simp [herr]
                simp only [hbeq, hbeq2, Bool.false_eq_true, if_false]
                rw [ih (k + 1) (by omega)]
                constructor
                · rintro ⟨j, hkj, hjp, hr, hni⟩
                  refine ⟨j, by omega, hjp, hr, fun i hi hij => ?_⟩
                  rcases Nat.eq_or_lt_of_le hi with h | h
                  · subst h
                    simp [pollTerminal, hst, hready, herr]
                  · exact hni i h hij
                · rintro ⟨j, hkj, hjp, hr, hni⟩
                  have hjk : k ≠ j := by
                    intro e
                    rw [← e, hst] at hr
                    exact hready (by injection hr)
                  exact ⟨j, by omega, hjp, hr, fun i hi hij => hni i (by omega) hij⟩
      · rw [if_neg hcond]
        constructor
        · intro h; cases h
        · rintro ⟨j, hkj, hjp, -, -⟩
          have : k * p ≤ j * p := Nat.mul_le_mul_right p hkj
          omega

/-- C7: `monitor` returns `True` exactly when some polled check within the
    time budget parses to status `READY` with no earlier terminal check;
    hence it returns `False` as soon as a check reports `ERROR` first, and
    returns `False` when the budget elapses with no `READY` report; every
    non-terminal iteration (no instance data, no SSH info, output without
    `STATUS:`, or any other status) just advances to the next poll. -/
theorem monitor_polling (f : Nat → PollOutcome) (max_wait_minutes poll_interval : Nat)
    (hp : 1 ≤ poll_interval) :
    (monitor f max_wait_minutes poll_interval = true ↔
      ∃ j, j * poll_interval < max_wait_minutes * 60 ∧
        outcomeStatus (f j) = some "READY" ∧
        ∀ i, i < j → ¬ pollTerminal (f i)) ∧
    ((∀ j, j * poll_interval < max_wait_minutes * 60 →
        outcomeStatus (f j) ≠ some "READY") →
      monitor f max_wait_minutes poll_interval = false) ∧
    (∀ j, j * poll_interval < max_wait_minutes * 60 →
      outcomeStatus (f j) = some "ERROR" →
      (∀ i, i < j → ¬ pollTerminal (f i)) →
      monitor f max_wait_minutes poll_interval = false) := by
  have hmain := monitorAux_characterization f (max_wait_minutes * 60) poll_interval hp
    (max_wait_minutes * 60 + 1) 0 (by omega)
  refine ⟨?_, ?_, ?_⟩
  · rw [monitor, hmain]
    constructor
    · rintro ⟨j, -, hjp, hr, hni⟩
      exact ⟨j, hjp, hr, fun i hij => hni i (Nat.zero_le i) hij⟩
    · rintro ⟨j, hjp, hr, hni⟩
      exact ⟨j, Nat.zero_le j, hjp, hr, fun i _ hij => hni i hij⟩
  · intro hnone
    cases hmb : monitor f max_wait_minutes poll_interval with
    | false => rfl
    | true =>
        rw [monitor] at hmb
        rw [hmain] at hmb
        obtain ⟨j, -, hjp, hr, -⟩ := hmb
        exact absurd hr (hnone j hjp)
  · intro j hjp herr hni
    cases hmb : monitor f max_wait_minutes poll_interval with
    | false => rfl
    | true =>
        rw [monitor] at hmb
        rw [hmain] at hmb
        obtain ⟨j2, -, hj2p, hr2, hni2⟩ := hmb
        rcases Nat.lt_trichotomy j j2 with h | h | h
        · exact absurd (Or.inr herr) (hni2 j (Nat.zero_le j) h)
        · subst h; rw [herr] at hr2; exact absurd (by injection hr2) (by decide)
        · exact absurd (Or.inl hr2) (hni j2 h)

/-- Witness for C7: one-minute budget, ten-second polls, `READY` on the
    third check and only sleeps before. -/
theorem monitor_polling_witness :
    (1 ≤ 10) ∧
    monitor (fun k => if k < 2 then PollOutcome.noSSHInfo
             else PollOutcome.scriptOutput "STATUS: READY\nDETAILS: up") 1 10 = true :=
  ⟨by decide,
   (monitor_polling
      (fun k => if k < 2 then PollOutcome.noSSHInfo
                else PollOutcome.scriptOutput "STATUS: READY\nDETAILS: up")
      1 10 (by decide)).1.mpr
     ⟨2, by decide, by rfl,
      by
        intro i hi
        interval_cases i <;> simp [pollTerminal, outcomeStatus]⟩⟩

/-!
## Decimal rendering / parsing roundtrip (`int(str(node_id))`)
-/

theorem digitChar_toNat (d : Nat) (hd : d < 10) :
    (Char.ofNat (48 + d)).toNat = 48 + d := by
  interval_cases d <;> decide

theorem digitChar_isDigit (d : Nat) (hd : d < 10) :
    isDigitChar (Char.ofNat (48 + d)) = true := by
  interval_cases d <;> decide

theorem digitChar_ne_minus (c : Char) (h : isDigitChar c = true) : ¬ c = '-' := by
  intro e
  subst e
  simp [isDigitChar] at h

theorem natDecChars_all_digits (n : Nat) :
    ∀ c ∈ natDecChars n, isDigitChar c = true := by
  intro c hc
  rw [natDecChars] at hc
  simp only [List.mem_reverse, List.mem_map] at hc
  obtain ⟨d, hd, rfl⟩ := hc
  exact digitChar_isDigit d (Nat.digits_lt_base (by norm_num) hd)

theorem foldr_digits_eq_ofDigits (l : List Nat) (hl : ∀ d ∈ l, d < 10) :
    List.foldr (fun c a => a * 10 + (c.toNat - 48)) 0
      (l.map (fun d => Char.ofNat (48 + d))) = Nat.ofDigits 10 l := by
  induction l with
  | nil => simp [Nat.ofDigits]
  | cons d rest ih =>
      have hd : d < 10 := hl d (List.mem_cons_self _ _)
      have hrest := ih (fun x hx => hl x (List.mem_cons_of_mem _ hx))
      simp only [List.map_cons, List.foldr_cons, hrest, Nat.ofDigits_cons]
      rw [digitChar_toNat d hd]
      omega

theorem decDecode_natDecChars (n : Nat) : decDecode (natDecChars n) = n := by
  rw [decDecode, natDecChars, List.foldl_reverse]
  rw [foldr_digits_eq_ofDigits _ (fun d hd => Nat.digits_lt_base (by norm_num) hd)]
  exact Nat.ofDigits_digits 10 n

theorem natDecChars_ne_nil (n : Nat) (h : n ≠ 0) : natDecChars n ≠ [] := by
  rw [natDecChars]
  simp [Nat.digits_ne_nil_iff_ne_zero.mpr h]

theorem pyIntOfString_digits (c : Char) (rest : List Char) (hc : ¬ c = '-')
    (hall : (c :: rest).all isDigitChar = true) :
    pyIntOfString (String.mk (c :: rest)) = .ok ((decDecode (c :: rest) : Int)) := by
  simp [pyIntOfString, hc, hall, String.toList]

theorem pyIntOfString_minus (rest : List Char) (hne : rest ≠ [])
    (hall : rest.all isDigitChar = true) :
    pyIntOfString ("-" ++ String.mk rest) = .ok (-(decDecode rest : Int)) := by
  have hlist : ("-" ++ String.mk rest).toList = '-' :: rest := by
    show ("-" ++ String.mk rest).data = _
    rw [String.data_append]
    rfl
  rw [pyIntOfString, hlist]
  simp [hall, hne]

theorem pyIntOfString_roundtrip (n : Int) :
    pyIntOfString (intToDecString n) = .ok n := by
  by_cases h0 : n = 0
  · subst h0; rfl
  · have habs : n.natAbs ≠ 0 := by omega
    have hall : (natDecChars n.natAbs).all isDigitChar = true := by
      rw [List.all_eq_true]
      exact natDecChars_all_digits n.natAbs
    by_cases hneg : n < 0
    · rw [intToDecString, if_neg h0, if_pos hneg]
      rw [pyIntOfString_minus _ (natDecChars_ne_nil _ habs) hall]
      rw [decDecode_natDecChars]
      congr 1
      omega
    · rw [intToDecString, if_neg h0, if_neg hneg]
      cases hcs : natDecChars n.natAbs with
      | nil => exact absurd hcs (natDecChars_ne_nil _ habs)
      | cons c rest =>
          rw [hcs] at hall
          have hcd : isDigitChar c = true := by
            have := natDecChars_all_digits n.natAbs
            rw [hcs] at this
            exact this c (List.mem_cons_self _ _)
          rw [pyIntOfString_digits c rest (digitChar_ne_minus c hcd) hall]
          rw [← hcs, decDecode_natDecChars]
          congr 1
          omega

/-!
## More dict lemmas
-/

theorem mem_oset (d : Obj) (k : String) (v : JValue) (kv : String × JValue)
    (h : kv ∈ oset d k v) : kv ∈ d ∨ kv = (k, v) := by
  induction d with
  | nil =>
      simp [oset] at h
      right; exact h
  | cons kv0 rest ih =>
      obtain ⟨k0, v0⟩ := kv0
      by_cases h0 : k0 = k
      · simp only [oset, if_pos h0] at h
        rcases List.mem_cons.mp h with h | h
        · right; rw [h, h0]
        · left; exact List.mem_cons_of_mem _ h
      · simp only [oset, if_neg h0] at h
        rcases List.mem_cons.mp h with h | h
        · left; rw [h]; exact List.mem_cons_self _ _
        · rcases ih h with h | h
          · left; exact List.mem_cons_of_mem _ h
          · right; exact h

theorem oset_of_absent (d : Obj) (k : String) (v : JValue)
    (h : olookup d k = none) : oset d k v = d ++ [(k, v)] := by
  induction d with
  | nil => rfl
  | cons kv0 rest ih =>
      obtain ⟨k0, v0⟩ := kv0
      rw [olookup] at h
      by_cases h0 : k0 = k
      · rw [if_pos h0] at h; cases h
      · rw [if_neg h0] at h
        simp only [oset, if_neg h0, List.cons_append, List.cons.injEq, true_and]
        exact ih h

theorem olookup_append (a b : Obj) (k : String) :
    olookup (a ++ b) k =
      match olookup a k with
      | some v => some v
      | none => olookup b k := by
  induction a with
  | nil => simp [olookup]
  | cons kv rest ih =>
      obtain ⟨k0, v0⟩ := kv
      by_cases h0 : k0 = k
      · simp [olookup, h0]
      · simp [olookup, h0, ih]

theorem olookup_isSome_iff (m : Obj) (k : String) :
    (olookup m k).isSome = true ↔ ∃ v, (k, v) ∈ m := by
  induction m with
  | nil => simp [olookup]
  | cons kv rest ih =>
      obtain ⟨k0, v0⟩ := kv
      by_cases h0 : k0 = k
      · subst h0
        simp [olookup]
      · simp only [olookup, if_neg h0, ih]
        constructor
        · rintro ⟨v, hv⟩
          exact ⟨v, List.mem_cons_of_mem _ hv⟩
        · rintro ⟨v, hv⟩
          rcases List.mem_cons.mp hv with h | h
          · exact absurd (congrArg Prod.fst h).symm h0
          · exact ⟨v, h⟩

theorem olookup_eq_of_mem_nodup (m : Obj) (k : String) (v : JValue)
    (hnd : (m.map Prod.fst).Nodup) (h : (k, v) ∈ m) : olookup m k = some v := by
  induction m with
  | nil => cases h
  | cons kv rest ih =>
      obtain ⟨k0, v0⟩ := kv
      simp only [List.map_cons, List.nodup_cons] at hnd
      rcases List.mem_cons.mp h with h | h
      · have hk : k0 = k := (congrArg Prod.fst h).symm
        have hv : v0 = v := (congrArg Prod.snd h).symm
        rw [olookup, if_pos hk, hv]
      · rw [olookup]
        by_cases h0 : k0 = k
        · exfalso
          subst h0
          exact hnd.1 (List.mem_map.mpr ⟨(k0, v), h, rfl⟩)
        · rw [if_neg h0]
          exact ih hnd.2 h

/-!
## `extract_configurable_values` characterization
-/

theorem extractInputWidgets_spec (defs : List JValue)
    (hwf : ∀ d ∈ defs, WidgetEntryWF d) :
    ∀ acc, ∃ ci, extractInputWidgets defs acc = .ok ci ∧
      (acc ≠ [] → ci ≠ []) ∧
      (defs.any hasWidgetKey = true → ci ≠ []) ∧
      (defs.any hasWidgetKey = false → ci = acc) := by
  induction defs with
  | nil =>
      intro acc
      exact ⟨acc, rfl, id, by simp, fun _ => rfl⟩
  | cons inp rest ih =>
      intro acc
      obtain ⟨iObj, rfl, hw⟩ := hwf inp (List.mem_cons_self _ _)
      have ihr := ih (fun d hd => hwf d (List.mem_cons_of_mem _ hd))
      by_cases hkey : dhasKey iObj "widget" = true
      · rcases hw with hnone | ⟨wObj, nm, hwv, hn⟩
        · exfalso
          rw [dhasKey] at hkey
          rw [Option.isNone_iff_eq_none] at hnone
          rw [hnone] at hkey
          cases hkey
        · obtain ⟨ci, hci, hpres, hex, hnon⟩ :=
            ihr (oset acc nm (JValue.obj
              [("type", dget iObj "type"), ("current_value", JValue.null)]))
          refine ⟨ci, ?_, ?_, ?_, ?_⟩
          · rw [extractInputWidgets]
            simp [pyInOp, hkey, jindex, asObj, oindex, hwv, hn, asStr, hci]
          · intro _
            exact hpres (oset_ne_nil _ _ _)
          · intro _
            exact hpres (oset_ne_nil _ _ _)
          · intro hall
            rw [List.any_cons] at hall
            simp only [Bool.or_eq_false_iff] at hall
            rw [hasWidgetKey] at hall
            rw [hall.1] at hkey
            cases hkey
      · simp only [Bool.not_eq_true] at hkey
        obtain ⟨ci, hci, hpres, hex, hnon⟩ := ihr acc
        refine ⟨ci, ?_, hpres, ?_, ?_⟩
        · rw [extractInputWidgets]
          simp [pyInOp, hkey, hci]
        · intro hany
          rw [List.any_cons] at hany
          rcases Bool.or_eq_true_iff.mp hany with h | h
          · rw [hasWidgetKey] at h
            rw [h] at hkey
            cases hkey
          · exact hex h
        · intro hall
          rw [List.any_cons] at hall
          simp only [Bool.or_eq_false_iff] at hall
          exact hnon hall.2

theorem extract_spec (nObj : Obj) (hwf : CleanNodeWF (JValue.obj nObj)) :
    ∃ cfg, extract_configurable_values nObj = .ok cfg ∧
      extractTotal nObj = cfg ∧
      olookup cfg "widgets_values" =
        (if pyTruthy (dgetD nObj "widgets_values" (JValue.arr [])) = true
         then some (dgetD nObj "widgets_values" (JValue.arr [])) else none) ∧
      cfg.isEmpty = !(flattenerKeeps nObj) := by
  obtain ⟨nObj2, heq, hinp⟩ := hwf
  obtain rfl : nObj = nObj2 := by injection heq
  have hdefs : ∃ defs, pyIterate (dgetD nObj "inputs" (JValue.arr [])) = .ok defs ∧
      inputDefsOf nObj = defs ∧ ∀ d ∈ defs, WidgetEntryWF d := by
    rcases hinp with h | ⟨defs, h, hwfd⟩
    · exact ⟨[], by simp [dgetD, h, pyIterate], by simp [inputDefsOf, h], by simp⟩
    · exact ⟨defs, by simp [dgetD, h, pyIterate], by simp [inputDefsOf, h], hwfd⟩
  obtain ⟨defs, hiter, hdefseq, hwfd⟩ := hdefs
  obtain ⟨ci, hci, hpres, hex, hnon⟩ := extractInputWidgets_spec defs hwfd []
  have hkeeps : flattenerKeeps nObj =
      (pyTruthy (dgetD nObj "widgets_values" (JValue.arr [])) || defs.any hasWidgetKey) := by
    rw [flattenerKeeps, hdefseq]
  cases ci with
  | nil =>
      have hany : defs.any hasWidgetKey = false := by
        cases h : defs.any hasWidgetKey with
        | false => rfl
        | true => exact absurd rfl (hex h)
      by_cases htr : pyTruthy (dgetD nObj "widgets_values" (JValue.arr [])) = true
      · refine ⟨[("widgets_values", dgetD nObj "widgets_values" (JValue.arr []))],
          ?_, ?_, ?_, ?_⟩
        · rw [extract_configurable_values]
          simp [htr, hiter, hci]
        · rw [extractTotal, extract_configurable_values]
          simp [htr, hiter, hci]
        · simp [olookup, htr]
        · simp [hkeeps, htr]
      · simp only [Bool.not_eq_true] at htr
        refine ⟨[], ?_, ?_, ?_, ?_⟩
        · rw [extract_configurable_values]
          simp [htr, hiter, hci]
        · rw [extractTotal, extract_configurable_values]
          simp [htr, hiter, hci]
        · simp [olookup, htr]
        · simp [hkeeps, htr, hany]
  | cons x xs =>
      have hanyt : defs.any hasWidgetKey = true := by
        cases h : defs.any hasWidgetKey with
        | true => rfl
        | false => exact absurd (hnon h) (by simp)
      by_cases htr : pyTruthy (dgetD nObj "widgets_values" (JValue.arr [])) = true
      · refine ⟨oset [("widgets_values", dgetD nObj "widgets_values" (JValue.arr []))]
            "input_widgets" (JValue.obj (x :: xs)), ?_, ?_, ?_, ?_⟩
        · rw [extract_configurable_values]
          simp [htr, hiter, hci]
        · rw [extractTotal, extract_configurable_values]
          simp [htr, hiter, hci]
        · rw [olookup_oset_ne _ _ _ _ (by decide)]
          simp [olookup, htr]
        · rw [show oset [("widgets_values", dgetD nObj "widgets_values" (JValue.arr []))]
              "input_widgets" (JValue.obj (x :: xs)) =
              [("widgets_values", dgetD nObj "widgets_values" (JValue.arr [])),
               ("input_widgets", JValue.obj (x :: xs))] from rfl]
          simp [hkeeps, htr]
      · simp only [Bool.not_eq_true] at htr
        refine ⟨oset [] "input_widgets" (JValue.obj (x :: xs)), ?_, ?_, ?_, ?_⟩
        · rw [extract_configurable_values]
          simp [htr, hiter, hci]
        · rw [extractTotal, extract_configurable_values]
          simp [htr, hiter, hci]
        · simp [oset, olookup, htr]
        · simp [oset, hkeeps, htr, hanyt]

/-!
## `clean_workflow_for_config` characterization
-/

theorem buildCleanNodes_total (nodes : List JValue) :
    ∀ acc, (∀ node ∈ nodes, CleanNodeWF node) →
    (∀ node nObj, node ∈ nodes → node = JValue.obj nObj → flattenerKeeps nObj = true →
      ∃ i : Int, olookup nObj "id" = some (JValue.num i)) →
    CleanedMapShape acc →
    ∃ m, buildCleanNodes nodes acc = .ok m ∧ CleanedMapShape m := by
  induction nodes with
  | nil => intro acc _ _ hacc; exact ⟨acc, rfl, hacc⟩
  | cons node rest ih =>
      intro acc hwf hid hacc
      obtain ⟨nObj, rfl, -⟩ := hwf node (List.mem_cons_self _ _)
      obtain ⟨cfg, hcfg, -, -, hemp⟩ :=
        extract_spec nObj (hwf _ (List.mem_cons_self _ _))
      have ihr := fun acc2 hacc2 => ih acc2
        (fun n hn => hwf n (List.mem_cons_of_mem _ hn))
        (fun n o hn ho hk => hid n o (List.mem_cons_of_mem _ hn) ho hk) hacc2
      cases hkeeps : flattenerKeeps nObj with
      | false =>
          have hce : cfg.isEmpty = true := by rw [hemp, hkeeps]; rfl
          obtain ⟨m, hm, hshape⟩ := ihr acc hacc
          refine ⟨m, ?_, hshape⟩
          rw [buildCleanNodes]
          simp [asObj, hcfg, hce, hm]
      | true =>
          have hce : cfg.isEmpty = false := by rw [hemp, hkeeps]; rfl
          obtain ⟨i, hi⟩ := hid _ nObj (List.mem_cons_self _ _) rfl hkeeps
          have hkey : pyStr (dget nObj "id") = intToDecString i := by
            rw [dget, hi]
            rfl
          have hacc2 : CleanedMapShape (oset acc (pyStr (dget nObj "id"))
              (JValue.obj [("type", dget nObj "type"), ("title", cleanTitleOf nObj),
                           ("configurable", JValue.obj cfg)])) := by
            intro kv hkv
            rcases mem_oset _ _ _ _ hkv with h | h
            · exact hacc kv h
            · subst h
              exact ⟨⟨i, hkey⟩, _, _, cfg, rfl⟩
          obtain ⟨m, hm, hshape⟩ := ihr _ hacc2
          refine ⟨m, ?_, hshape⟩
          rw [buildCleanNodes]
          simp only [asObj, except_ok_bind, hcfg, hce]
          rw [show (!false) = true from rfl, if_pos rfl]
          rw [show dgetD nObj "title"
              (JValue.str (pyStr (dget nObj "type") ++ "_" ++ pyStr (dget nObj "id"))) =
              cleanTitleOf nObj from rfl]
          exact hm

theorem buildCleanNodes_eq (nodes : List JValue) :
    ∀ acc, (∀ node ∈ nodes, CleanNodeWF node) →
    (∀ node ∈ nodes, nodeKept node = true → olookup acc (cleanKeyStr node) = none) →
    (((nodes.filter nodeKept).map cleanKeyStr).Nodup) →
    buildCleanNodes nodes acc = .ok (acc ++ nodes.filterMap cleanEntryOf) := by
  induction nodes with
  | nil => intro acc _ _ _; simp [buildCleanNodes]
  | cons node rest ih =>
      intro acc hwf hfresh hnodup
      obtain ⟨nObj, rfl, -⟩ := hwf node (List.mem_cons_self _ _)
      obtain ⟨cfg, hcfg, htot, -, hemp⟩ :=
        extract_spec nObj (hwf _ (List.mem_cons_self _ _))
      have ihr := fun acc2 hfresh2 hnodup2 => ih acc2
        (fun n hn => hwf n (List.mem_cons_of_mem _ hn)) hfresh2 hnodup2
      cases hkeeps : flattenerKeeps nObj with
      | false =>
          have hce : cfg.isEmpty = true := by rw [hemp, hkeeps]; rfl
          have hkept : nodeKept (JValue.obj nObj) = false := by
            simp [nodeKept, htot, hce]
          have hentry : cleanEntryOf (JValue.obj nObj) = none := by
            rw [cleanEntryOf]
            simp [htot, hce]
          rw [buildCleanNodes]
          simp only [asObj, except_ok_bind, hcfg, hce]
          rw [show (!true) = false from rfl, if_neg (by simp)]
          rw [List.filterMap_cons, hentry]
          rw [List.filter_cons, hkept] at hnodup
          simp only [Bool.false_eq_true, if_false] at hnodup
          exact ihr acc (fun n hn hk => hfresh n (List.mem_cons_of_mem _ hn) hk) hnodup
      | true =>
          have hce : cfg.isEmpty = false := by rw [hemp, hkeeps]; rfl
          have hkept : nodeKept (JValue.obj nObj) = true := by
            simp [nodeKept, htot, hce]
          have hentry : cleanEntryOf (JValue.obj nObj) =
              some (pyStr (dget nObj "id"),
                JValue.obj [("type", dget nObj "type"), ("title", cleanTitleOf nObj),
                            ("configurable", JValue.obj cfg)]) := by
            rw [cleanEntryOf]
            simp [htot, hce]
          rw [List.filter_cons, hkept] at hnodup
          simp only [if_true, List.map_cons, List.nodup_cons] at hnodup
          have hfr : olookup acc (cleanKeyStr (JValue.obj nObj)) = none :=
            hfresh _ (List.mem_cons_self _ _) hkept
          rw [buildCleanNodes]
          simp only [asObj, except_ok_bind, hcfg, hce]
          rw [show (!false) = true from rfl, if_pos rfl]
          rw [show dgetD nObj "title"
              (JValue.str (pyStr (dget nObj "type") ++ "_" ++ pyStr (dget nObj "id"))) =
              cleanTitleOf nObj from rfl]
          have hkeyeq : pyStr (dget nObj "id") = cleanKeyStr (JValue.obj nObj) := rfl
          rw [hkeyeq, oset_of_absent _ _ _ hfr]
          rw [ihr _ ?_ ?_]
          · rw [List.filterMap_cons, hentry, List.append_assoc]
            rfl
          · intro n hn hk
            rw [olookup_append]
            rw [hfresh n (List.mem_cons_of_mem _ hn) hk]
            have hne : cleanKeyStr (JValue.obj nObj) ≠ cleanKeyStr n := by
              intro e
              exact hnodup.1 (e ▸ List.mem_map.mpr
                ⟨n, List.mem_filter.mpr ⟨hn, hk⟩, rfl⟩)
            simp [olookup, hne]
          · exact hnodup.2

theorem filterMap_cleanEntry_keys (nodes : List JValue) :
    (nodes.filterMap cleanEntryOf).map Prod.fst =
      (nodes.filter nodeKept).map cleanKeyStr := by
  induction nodes with
  | nil => rfl
  | cons node rest ih =>
      rw [List.filterMap_cons, List.filter_cons]
      cases node with
      | obj nObj =>
          cases hk : (extractTotal nObj).isEmpty with
          | true =>
              have h1 : cleanEntryOf (JValue.obj nObj) = none := by
                simp [cleanEntryOf, hk]
              have h2 : nodeKept (JValue.obj nObj) = false := by
                simp [nodeKept, hk]
              rw [h1, h2]
              simpa using ih
          | false =>
              have h1 : cleanEntryOf (JValue.obj nObj) =
                  some (pyStr (dget nObj "id"),
                    JValue.obj [("type", dget nObj "type"), ("title", cleanTitleOf nObj),
                                ("configurable", JValue.obj (extractTotal nObj))]) := by
                simp [cleanEntryOf, hk]
              have h2 : nodeKept (JValue.obj nObj) = true := by
                simp [nodeKept, hk]
              rw [h1, h2]
              simp only [if_true, List.map_cons]
              rw [ih]
              rfl
      | null => simpa [cleanEntryOf, nodeKept] using ih
      | bool b => simpa [cleanEntryOf, nodeKept] using ih
      | num n => simpa [cleanEntryOf, nodeKept] using ih
      | str s => simpa [cleanEntryOf, nodeKept] using ih
      | arr xs => simpa [cleanEntryOf, nodeKept] using ih

theorem olookup_mem (m : Obj) (k : String) (v : JValue)
    (h : olookup m k = some v) : (k, v) ∈ m := by
  induction m with
  | nil => cases h
  | cons kv rest ih =>
      obtain ⟨k0, v0⟩ := kv
      rw [olookup] at h
      by_cases h0 : k0 = k
      · rw [if_pos h0] at h
        injection h with h
        subst h0 h
        exact List.mem_cons_self _ _
      · rw [if_neg h0] at h
        exact List.mem_cons_of_mem _ (ih h)

theorem clean_workflow_eq (wd : Obj) (nodes : List JValue)
    (hn : dgetD wd "nodes" (JValue.arr []) = JValue.arr nodes)
    (hwf : ∀ node ∈ nodes, CleanNodeWF node)
    (hnodup : ((nodes.filter nodeKept).map cleanKeyStr).Nodup) :
    ∃ cl, clean_workflow_for_config (JValue.obj wd) = .ok (JValue.obj cl) ∧
      olookup cl "nodes" = some (JValue.obj (nodes.filterMap cleanEntryOf)) ∧
      olookup cl "workflow_info" = some (JValue.obj
        [("id", dget wd "id"), ("name", JValue.str ""),
         ("description", JValue.str "Auto-generated configuration template")]) := by
  have hbuild : buildCleanNodes nodes [] = .ok ([] ++ nodes.filterMap cleanEntryOf) :=
    buildCleanNodes_eq nodes [] hwf (fun _ _ _ => rfl) hnodup
  rw [List.nil_append] at hbuild
  by_cases hlinks : dhasKey wd "links" = true
  · refine ⟨oset [("workflow_info", JValue.obj
        [("id", dget wd "id"), ("name", JValue.str ""),
         ("description", JValue.str "Auto-generated configuration template")]),
        ("nodes", JValue.obj (nodes.filterMap cleanEntryOf))] "links" (dget wd "links"),
      ?_, ?_, ?_⟩
    · rw [clean_workflow_for_config]
      simp [asObj, hn, pyIterate, hbuild, hlinks]
    · rw [olookup_oset_ne _ _ _ _ (by decide)]
      rfl
    · rw [olookup_oset_ne _ _ _ _ (by decide)]
      rfl
  · simp only [Bool.not_eq_true] at hlinks
    refine ⟨[("workflow_info", JValue.obj
        [("id", dget wd "id"), ("name", JValue.str ""),
         ("description", JValue.str "Auto-generated configuration template")]),
        ("nodes", JValue.obj (nodes.filterMap cleanEntryOf))], ?_, rfl, rfl⟩
    rw [clean_workflow_for_config]
    simp [asObj, hn, pyIterate, hbuild, hlinks]

theorem clean_workflow_total (wd : Obj) (nodes : List JValue)
    (hn : dgetD wd "nodes" (JValue.arr []) = JValue.arr nodes)
    (hwf : ∀ node ∈ nodes, CleanNodeWF node)
    (hid : ∀ node nObj, node ∈ nodes → node = JValue.obj nObj →
      flattenerKeeps nObj = true → ∃ i : Int, olookup nObj "id" = some (JValue.num i)) :
    ∃ cl nodesOut info, clean_workflow_for_config (JValue.obj wd) = .ok (JValue.obj cl) ∧
      olookup cl "nodes" = some (JValue.obj nodesOut) ∧ CleanedMapShape nodesOut ∧
      olookup cl "workflow_info" = some (JValue.obj info) ∧
      olookup info "name" = some (JValue.str "") := by
  obtain ⟨m, hm, hshape⟩ := buildCleanNodes_total nodes [] hwf hid (by intro kv h; cases h)
  by_cases hlinks : dhasKey wd "links" = true
  · refine ⟨oset [("workflow_info", JValue.obj
        [("id", dget wd "id"), ("name", JValue.str ""),
         ("description", JValue.str "Auto-generated configuration template")]),
        ("nodes", JValue.obj m)] "links" (dget wd "links"), m,
        [("id", dget wd "id"), ("name", JValue.str ""),
         ("description", JValue.str "Auto-generated configuration template")],
        ?_, ?_, hshape, ?_, rfl⟩
    · rw [clean_workflow_for_config]
      simp [asObj, hn, pyIterate, hm, hlinks]
    · rw [olookup_oset_ne _ _ _ _ (by decide)]
      rfl
    · rw [olookup_oset_ne _ _ _ _ (by decide)]
      rfl
  · simp only [Bool.not_eq_true] at hlinks
    refine ⟨[("workflow_info", JValue.obj
        [("id", dget wd "id"), ("name", JValue.str ""),
         ("description", JValue.str "Auto-generated configuration template")]),
        ("nodes", JValue.obj m)], m,
        [("id", dget wd "id"), ("name", JValue.str ""),
         ("description", JValue.str "Auto-generated configuration template")],
        ?_, rfl, hshape, rfl, rfl⟩
    rw [clean_workflow_for_config]
    simp [asObj, hn, pyIterate, hm, hlinks]

/-!
## `format_for_easy_editing` characterization
-/

theorem groupLookup_oset_self (m : Obj) (t ik : String) (g : Obj) :
    groupLookup (oset m t (JValue.obj g)) t ik = olookup g ik := by
  rw [groupLookup, olookup_oset_self]

theorem groupLookup_oset_ne (m : Obj) (t t2 ik : String) (v : JValue) (h : t2 ≠ t) :
    groupLookup (oset m t v) t2 ik = groupLookup m t2 ik := by
  rw [groupLookup, olookup_oset_ne _ _ _ _ h, groupLookup]

theorem formatLoop_spec (entries : List (String × JValue)) :
    ∀ acc, CleanedMapShape entries → GroupsShape acc →
    ∃ cp, formatLoop entries acc = .ok cp ∧ GroupsShape cp ∧
      (∀ t ik, (∀ kv ∈ entries, ¬(entryTypeKey kv = t ∧ entryInstKey kv = ik)) →
        groupLookup cp t ik = groupLookup acc t ik) ∧
      ((entries.map (fun kv => (entryTypeKey kv, entryInstKey kv))).Nodup →
        ∀ kv ∈ entries,
          groupLookup cp (entryTypeKey kv) (entryInstKey kv) = some (fmtEntryOf kv)) := by
  induction entries with
  | nil =>
      intro acc _ hacc
      exact ⟨acc, rfl, hacc, fun _ _ _ => rfl, fun _ kv h => absurd h (List.not_mem_nil kv)⟩
  | cons kv0 rest ih =>
      intro acc hshape hacc
      obtain ⟨k, v⟩ := kv0
      obtain ⟨⟨i, hk⟩, t, ti, cfg, hv⟩ := hshape (k, v) (List.mem_cons_self _ _)
      subst hv
      have hk2 : k = intToDecString i := hk
      have hint : pyIntOfString k = .ok i := by
        rw [hk2]; exact pyIntOfString_roundtrip i
      have hitot : pyIntTotal k = i := by rw [pyIntTotal, hint]
      have hgshape : ∀ e2 ∈ (match olookup acc (pyStr t) with
          | some (JValue.obj g) => g
          | _ => ([] : Obj)), ∃ eo, e2.2 = JValue.obj eo ∧
          (olookup eo "node_id").isSome ∧ (olookup eo "title").isSome ∧
          ∃ p, olookup eo "parameters" = some (JValue.obj p) := by
        intro e2 he2
        cases hlk : olookup acc (pyStr t) with
        | none => rw [hlk] at he2; cases he2
        | some gv =>
            cases gv with
            | obj g =>
                rw [hlk] at he2
                obtain ⟨g2, hg2, hmem⟩ := hacc (pyStr t, JValue.obj g) (olookup_mem _ _ _ hlk)
                injection hg2 with hg2
                exact hmem e2 (hg2 ▸ he2)
            | null => rw [hlk] at he2; cases he2
            | bool b => rw [hlk] at he2; cases he2
            | num n => rw [hlk] at he2; cases he2
            | str s => rw [hlk] at he2; cases he2
            | arr xs => rw [hlk] at he2; cases he2
      have hacc2 : GroupsShape (oset acc (pyStr t) (JValue.obj
          (oset (match olookup acc (pyStr t) with
            | some (JValue.obj g) => g
            | _ => ([] : Obj))
            (pyReplace (k ++ "_" ++ pyStr ti) " " "_")
            (JValue.obj [("node_id", JValue.num i), ("title", ti),
                         ("parameters", JValue.obj cfg)])))) := by
        intro kv2 hkv2
        rcases mem_oset _ _ _ _ hkv2 with h | h
        · exact hacc kv2 h
        · subst h
          refine ⟨_, rfl, ?_⟩
          intro e2 he2
          rcases mem_oset _ _ _ _ he2 with h2 | h2
          · exact hgshape e2 h2
          · subst h2
            exact ⟨[("node_id", JValue.num i), ("title", ti),
                    ("parameters", JValue.obj cfg)], rfl,
              by simp [olookup], by simp [olookup], cfg, by simp [olookup]⟩
      obtain ⟨cp, hcp, hcpshape, hpres, hmemb⟩ :=
        ih _ (fun kv2 h2 => hshape kv2 (List.mem_cons_of_mem _ h2)) hacc2
      have htk : entryTypeKey (k, JValue.obj
          [("type", t), ("title", ti), ("configurable", JValue.obj cfg)]) = pyStr t := rfl
      have hik : entryInstKey (k, JValue.obj
          [("type", t), ("title", ti), ("configurable", JValue.obj cfg)]) =
          pyReplace (k ++ "_" ++ pyStr ti) " " "_" := rfl
      have hrun : formatLoop ((k, JValue.obj
          [("type", t), ("title", ti), ("configurable", JValue.obj cfg)]) :: rest) acc =
          .ok cp := by
        rw [formatLoop]
        simp only [jindex, asObj, except_ok_bind]
        rw [show oindex [("type", t), ("title", ti), ("configurable", JValue.obj cfg)]
            "type" = .ok t from rfl]
        rw [show oindex [("type", t), ("title", ti), ("configurable", JValue.obj cfg)]
            "title" = .ok ti from rfl]
        rw [show oindex [("type", t), ("title", ti), ("configurable", JValue.obj cfg)]
            "configurable" = .ok (JValue.obj cfg) from rfl]
        simp only [except_ok_bind, hint]
        exact hcp
      refine ⟨cp, hrun, hcpshape, ?_, ?_⟩
      · intro t2 ik2 hno
        have hnohead := hno _ (List.mem_cons_self _ _)
        rw [htk, hik] at hnohead
        rw [hpres t2 ik2 (fun kv2 h2 => hno kv2 (List.mem_cons_of_mem _ h2))]
        by_cases hteq : pyStr t = t2
        · subst hteq
          have hikne : pyReplace (k ++ "_" ++ pyStr ti) " " "_" ≠ ik2 := by
            intro e2
            exact hnohead ⟨rfl, e2⟩
          rw [groupLookup_oset_self]
          rw [olookup_oset_ne _ _ _ _ (fun e2 => hikne e2.symm)]
          rw [groupLookup]
          cases hlk : olookup acc (pyStr t) with
          | none => simp [olookup]
          | some gv =>
              cases gv with
              | obj g => rfl
              | null => simp [olookup]
              | bool b => simp [olookup]
              | num n => simp [olookup]
              | str s => simp [olookup]
              | arr xs => simp [olookup]
        · rw [groupLookup_oset_ne _ _ _ _ _ (fun e2 => hteq e2.symm)]
      · intro hnodup kv2 hkv2
        simp only [List.map_cons, List.nodup_cons] at hnodup
        rcases List.mem_cons.mp hkv2 with h2 | h2
        · subst h2
          rw [htk, hik]
          rw [hpres (pyStr t) (pyReplace (k ++ "_" ++ pyStr ti) " " "_") ?_]
          · rw [groupLookup_oset_self, olookup_oset_self]
            rw [show fmtEntryOf (k, JValue.obj
                [("type", t), ("title", ti), ("configurable", JValue.obj cfg)]) =
                JValue.obj [("node_id", JValue.num (pyIntTotal k)), ("title", ti),
                            ("parameters", JValue.obj cfg)] from rfl]
            rw [hitot]
          · intro kv3 h3 hcol
            refine hnodup.1 ?_
            rw [htk, hik, ← hcol.1, ← hcol.2]
            exact List.mem_map.mpr ⟨kv3, h3, rfl⟩
        · exact hmemb hnodup.2 kv2 h2

theorem format_spec (cl info nodesOut : Obj)
    (hinfo : olookup cl "workflow_info" = some (JValue.obj info))
    (hname : olookup info "name" = some (JValue.str ""))
    (hnodes : olookup cl "nodes" = some (JValue.obj nodesOut))
    (hshape : CleanedMapShape nodesOut) :
    ∃ fm cp, format_for_easy_editing (JValue.obj cl) = .ok (JValue.obj fm) ∧
      olookup fm "configurable_parameters" = some (JValue.obj cp) ∧
      GroupsShape cp ∧ formatLoop nodesOut [] = .ok cp ∧
      olookup fm "workflow_info" = some (JValue.obj info) := by
  obtain ⟨cp, hcp, hcpshape, -, -⟩ :=
    formatLoop_spec nodesOut [] hshape (by intro kv h; cases h)
  by_cases hlinks : dhasKey cl "links" = true
  · refine ⟨oset [("workflow_info", JValue.obj info),
      ("instance_config", JValue.obj (instanceConfigBlock (pyStr (JValue.str "") ++ ".sh"))),
      ("configurable_parameters", JValue.obj cp)] "workflow_links" (dget cl "links"),
      cp, ?_, ?_, hcpshape, hcp, ?_⟩
    · rw [format_for_easy_editing]
      simp [oindex, hinfo, jindex, asObj, hname, hnodes, hcp, hlinks]
    · rw [olookup_oset_ne _ _ _ _ (by decide)]
      rfl
    · rw [olookup_oset_ne _ _ _ _ (by decide)]
      rfl
  · simp only [Bool.not_eq_true] at hlinks
    refine ⟨[("workflow_info", JValue.obj info),
      ("instance_config", JValue.obj (instanceConfigBlock (pyStr (JValue.str "") ++ ".sh"))),
      ("configurable_parameters", JValue.obj cp)], cp, ?_, rfl, hcpshape, hcp, rfl⟩
    rw [format_for_easy_editing]
    simp [oindex, hinfo, jindex, asObj, hname, hnodes, hcp, hlinks]

/-!
## `create_user_friendly_template` totality
-/

theorem createInner_total (node_type : String) (g : List (String × JValue)) :
    ∀ acc, (∀ e ∈ g, ∃ eo, e.2 = JValue.obj eo ∧
      (olookup eo "node_id").isSome ∧ (olookup eo "title").isSome ∧
      ∃ p, olookup eo "parameters" = some (JValue.obj p)) →
    ∃ out, createInner node_type g acc = .ok out := by
  induction g with
  | nil => intro acc _; exact ⟨acc, rfl⟩
  | cons e0 rest ih =>
      intro acc hg
      obtain ⟨eo, heo, hnid, hti, p, hp⟩ := hg e0 (List.mem_cons_self _ _)
      obtain ⟨k2, v2⟩ := e0
      simp only at heo
      subst heo
      obtain ⟨nidV, hnidV⟩ := Option.isSome_iff_exists.mp hnid
      obtain ⟨tiV, htiV⟩ := Option.isSome_iff_exists.mp hti
      by_cases htr : pyTruthy (JValue.obj p) = true
      · obtain ⟨out, hout⟩ := ih (oset acc k2 (JValue.obj
          [("node_type", JValue.str node_type), ("node_id", nidV), ("title", tiV),
           ("values", dgetD p "widgets_values" (JValue.arr [])),
           ("note", JValue.str ("Configurable parameters for " ++ node_type))]))
          (fun x hx => hg x (List.mem_cons_of_mem _ hx))
        refine ⟨out, ?_⟩
        rw [createInner]
        simp [jindex, asObj, oindex, hp, hnidV, htiV, htr, hout]
      · simp only [Bool.not_eq_true] at htr
        obtain ⟨out, hout⟩ := ih acc (fun x hx => hg x (List.mem_cons_of_mem _ hx))
        refine ⟨out, ?_⟩
        rw [createInner]
        simp [jindex, asObj, oindex, hp, htr, hout]

theorem createOuter_total (cp : List (String × JValue)) :
    ∀ acc, GroupsShape cp → ∃ out, createOuter cp acc = .ok out := by
  induction cp with
  | nil => intro acc _; exact ⟨acc, rfl⟩
  | cons kv rest ih =>
      intro acc hcp
      obtain ⟨g, hg, hge⟩ := hcp kv (List.mem_cons_self _ _)
      obtain ⟨k2, v2⟩ := kv
      simp only at hg
      subst hg
      obtain ⟨mid, hmid⟩ := createInner_total k2 g acc hge
      obtain ⟨out, hout⟩ := ih mid (fun x hx => hcp x (List.mem_cons_of_mem _ hx))
      exact ⟨out, by rw [createOuter]; simp [asObj, hmid, hout]⟩

theorem create_total (fm info cp : Obj)
    (hinfo : olookup fm "workflow_info" = some (JValue.obj info))
    (hname : olookup info "name" = some (JValue.str ""))
    (hcp : olookup fm "configurable_parameters" = some (JValue.obj cp))
    (hshape : GroupsShape cp) :
    ∃ out, create_user_friendly_template (JValue.obj fm) = .ok out := by
  obtain ⟨params, hparams⟩ := createOuter_total cp [] hshape
  refine ⟨JValue.obj (oset
    [("workflow_name", JValue.str ""),
     ("description", JValue.str "Edit the values below, then use with execute_workflow_config.py"),
     ("instance_config", JValue.obj (instanceConfigBlock (pyStr (JValue.str "") ++ ".sh"))),
     ("parameters", JValue.obj params)] "_internal"
    (JValue.obj [("original_structure", JValue.obj fm),
                 ("note", JValue.str "This section is used internally for workflow reconstruction")])), ?_⟩
  rw [create_user_friendly_template]
  simp [asObj, oindex, hinfo, jindex, hname, hcp, hparams]

/-!
## Supporting facts for C3 / C4
-/

theorem nodeKept_eq (node : JValue) (nObj : Obj) (h : node = JValue.obj nObj)
    (hwf : CleanNodeWF node) : nodeKept node = flattenerKeeps nObj := by
  subst h
  obtain ⟨cfg, -, htot, -, hemp⟩ := extract_spec nObj hwf
  rw [show nodeKept (JValue.obj nObj) = !(extractTotal nObj).isEmpty from rfl]
  rw [htot, hemp, Bool.not_not]

theorem filterMap_clean_shape (nodes : List JValue)
    (hwf : ∀ node ∈ nodes, CleanNodeWF node)
    (hid : ∀ node nObj, node ∈ nodes → node = JValue.obj nObj →
      flattenerKeeps nObj = true → ∃ i : Int, olookup nObj "id" = some (JValue.num i)) :
    CleanedMapShape (nodes.filterMap cleanEntryOf) := by
  intro kv hkv
  obtain ⟨node, hmem, hent⟩ := List.mem_filterMap.mp hkv
  cases node with
  | obj nObj =>
      rw [cleanEntryOf] at hent
      by_cases hce : (extractTotal nObj).isEmpty = true
      · simp [hce] at hent
      · simp only [Bool.not_eq_true] at hce
        simp only [hce, Bool.false_eq_true, if_false] at hent
        have hkeeps : flattenerKeeps nObj = true := by
          rw [← nodeKept_eq _ nObj rfl (hwf _ hmem)]
          simp [nodeKept, hce]
        obtain ⟨i, hi⟩ := hid _ nObj hmem rfl hkeeps
        have hkey : pyStr (dget nObj "id") = intToDecString i := by
          rw [dget, hi]; rfl
        injection hent with hent
        subst hent
        exact ⟨⟨i, hkey⟩, _, _, extractTotal nObj, rfl⟩
  | null => exact Option.noConfusion hent
  | bool b => exact Option.noConfusion hent
  | num n => exact Option.noConfusion hent
  | str s => exact Option.noConfusion hent
  | arr xs => exact Option.noConfusion hent

theorem cleanEntryOf_kept (node : JValue) (nObj : Obj) (h : node = JValue.obj nObj)
    (hwf : CleanNodeWF node) (hk : flattenerKeeps nObj = true) :
    cleanEntryOf node = some (cleanKeyStr node,
      JValue.obj [("type", dget nObj "type"), ("title", cleanTitleOf nObj),
                  ("configurable", JValue.obj (extractTotal nObj))]) := by
  subst h
  have hkept : nodeKept (JValue.obj nObj) = true := by
    rw [nodeKept_eq _ nObj rfl hwf, hk]
  have hce : (extractTotal nObj).isEmpty = false := by
    rw [show nodeKept (JValue.obj nObj) = !(extractTotal nObj).isEmpty from rfl] at hkept
    cases h2 : (extractTotal nObj).isEmpty with
    | false => rfl
    | true => rw [h2] at hkept; cases hkept
  rw [cleanEntryOf]
  simp [hce]
  rfl

/-!
## C3 — the flattener pipeline on arbitrary workflow dicts
-/

/-- C3 counterexample: a workflow dict whose single node merely lacks the
    `id` key (with a non-empty `widgets_values`) makes the pipeline raise:
    `clean_workflow_for_config` files the node under `str(None) = "None"` and
    `format_for_easy_editing` then raises `ValueError` on `int("None")`. -/
theorem flattenPipeline_missing_id_raises :
    flattenPipeline (JValue.obj [("nodes", JValue.arr
      [JValue.obj [("widgets_values", JValue.arr [JValue.num 1])]])]) =
      .error "ValueError: invalid literal for int" ∧
    ∀ v, flattenPipeline (JValue.obj [("nodes", JValue.arr
      [JValue.obj [("widgets_values", JValue.arr [JValue.num 1])]])]) ≠ .ok v :=
  ⟨rfl, fun _ h => Except.noConfusion h⟩

/-- C3 (amended): the pipeline `clean_workflow_for_config`,
    `format_for_easy_editing`, `create_user_friendly_template` completes
    without raising on every workflow dict whose `nodes` (when present) is a
    list of dicts, each with list-shaped `inputs` (when present) whose
    `widget` declarations (when present) are dicts with a string `name`, and
    whose `id` is an integer whenever the node has configurable values;
    missing keys only produce empty or default values. -/
theorem flattenPipeline_total (wd : Obj) (nodes : List JValue)
    (hn : dgetD wd "nodes" (JValue.arr []) = JValue.arr nodes)
    (hwf : ∀ node ∈ nodes, CleanNodeWF node)
    (hid : ∀ node nObj, node ∈ nodes → node = JValue.obj nObj →
      flattenerKeeps nObj = true → ∃ i : Int, olookup nObj "id" = some (JValue.num i)) :
    ∃ out, flattenPipeline (JValue.obj wd) = .ok out := by
  obtain ⟨cl, nodesOut, info, hclean, hnodes, hshape, hinfo, hname⟩ :=
    clean_workflow_total wd nodes hn hwf hid
  obtain ⟨fm, cp, hfmt, hcp, hcpshape, -, hfminfo⟩ :=
    format_spec cl info nodesOut hinfo hname hnodes hshape
  obtain ⟨out, hout⟩ := create_total fm info cp hfminfo hname hcp hcpshape
  refine ⟨out, ?_⟩
  rw [flattenPipeline]
  simp [hclean, hfmt, hout]

/-- Witness for C3's amended theorem on a one-node workflow. -/
theorem flattenPipeline_total_witness :
    dgetD [("nodes", JValue.arr [JValue.obj
        [("id", JValue.num 3), ("type", JValue.str "KSampler"),
         ("widgets_values", JValue.arr [JValue.num 7])]])]
      "nodes" (JValue.arr []) =
      JValue.arr [JValue.obj
        [("id", JValue.num 3), ("type", JValue.str "KSampler"),
         ("widgets_values", JValue.arr [JValue.num 7])]] ∧
    ∃ out, flattenPipeline (JValue.obj [("nodes", JValue.arr [JValue.obj
        [("id", JValue.num 3), ("type", JValue.str "KSampler"),
         ("widgets_values", JValue.arr [JValue.num 7])]])]) = .ok out :=
  ⟨rfl,
   flattenPipeline_total
     [("nodes", JValue.arr [JValue.obj
        [("id", JValue.num 3), ("type", JValue.str "KSampler"),
         ("widgets_values", JValue.arr [JValue.num 7])]])]
     [JValue.obj [("id", JValue.num 3), ("type", JValue.str "KSampler"),
                  ("widgets_values", JValue.arr [JValue.num 7])]]
     rfl
     (by
        intro node hnode
        simp only [List.mem_singleton] at hnode
        subst hnode
        exact ⟨_, rfl, Or.inl rfl⟩)
     (by
        intro node nObj hnode heq hk
        simp only [List.mem_singleton] at hnode
        subst hnode
        injection heq with heq
        subst heq
        exact ⟨3, rfl⟩)⟩

/-!
## C4 — inclusion, verbatim copy and grouping
-/

/-- C4: `clean_workflow_for_config` includes a node in its output `nodes` map
    iff the node has a truthy `widgets_values` list or some input carrying a
    `widget` declaration; for every included node the widget-values list is
    readable verbatim from the output's `configurable` (absent exactly when
    the node's own list is empty or absent); and `format_for_easy_editing`
    files every included node under its node type inside
    `configurable_parameters`. -/
theorem clean_workflow_inclusion_and_grouping
    (wd : Obj) (nodes : List JValue)
    (hn : dgetD wd "nodes" (JValue.arr []) = JValue.arr nodes)
    (hwf : ∀ node ∈ nodes, CleanNodeWF node)
    (hid : ∀ node nObj, node ∈ nodes → node = JValue.obj nObj →
      flattenerKeeps nObj = true → ∃ i : Int, olookup nObj "id" = some (JValue.num i))
    (hnodup : ((nodes.filter nodeKept).map cleanKeyStr).Nodup)
    (hpairs : ((nodes.filterMap cleanEntryOf).map
        (fun kv => (entryTypeKey kv, entryInstKey kv))).Nodup) :
    ∃ cl, clean_workflow_for_config (JValue.obj wd) = .ok (JValue.obj cl) ∧
      olookup cl "nodes" = some (JValue.obj (nodes.filterMap cleanEntryOf)) ∧
      (∀ k, (olookup (nodes.filterMap cleanEntryOf) k).isSome = true ↔
        ∃ node nObj, node ∈ nodes ∧ node = JValue.obj nObj ∧
          cleanKeyStr node = k ∧ flattenerKeeps nObj = true) ∧
      (∀ node nObj, node ∈ nodes → node = JValue.obj nObj → flattenerKeeps nObj = true →
        ∃ e cfg, olookup (nodes.filterMap cleanEntryOf) (cleanKeyStr node) =
            some (JValue.obj e) ∧
          olookup e "configurable" = some (JValue.obj cfg) ∧
          olookup cfg "widgets_values" =
            (if pyTruthy (dgetD nObj "widgets_values" (JValue.arr [])) = true
             then some (dgetD nObj "widgets_values" (JValue.arr [])) else none)) ∧
      (∃ fm cp, format_for_easy_editing (JValue.obj cl) = .ok (JValue.obj fm) ∧
        olookup fm "configurable_parameters" = some (JValue.obj cp) ∧
        ∀ node nObj, node ∈ nodes → node = JValue.obj nObj → flattenerKeeps nObj = true →
          ∃ kv, cleanEntryOf node = some kv ∧
            entryTypeKey kv = pyStr (dget nObj "type") ∧
            groupLookup cp (entryTypeKey kv) (entryInstKey kv) = some (fmtEntryOf kv)) := by
  obtain ⟨cl, hclean, hnodes, hinfo⟩ := clean_workflow_eq wd nodes hn hwf hnodup
  have hkeysnd : ((nodes.filterMap cleanEntryOf).map Prod.fst).Nodup := by
    rw [filterMap_cleanEntry_keys]
    exact hnodup
  have hshape := filterMap_clean_shape nodes hwf hid
  refine ⟨cl, hclean, hnodes, ?_, ?_, ?_⟩
  · intro k
    rw [olookup_isSome_iff]
    constructor
    · rintro ⟨v, hv⟩
      obtain ⟨node, hmem, hent⟩ := List.mem_filterMap.mp hv
      cases node with
      | obj nObj =>
          rw [cleanEntryOf] at hent
          by_cases hce : (extractTotal nObj).isEmpty = true
          · simp [hce] at hent
          · simp only [Bool.not_eq_true] at hce
            simp only [hce, Bool.false_eq_true, if_false] at hent
            have hkeeps : flattenerKeeps nObj = true := by
              rw [← nodeKept_eq _ nObj rfl (hwf _ hmem)]
              simp [nodeKept, hce]
            refine ⟨JValue.obj nObj, nObj, hmem, rfl, ?_, hkeeps⟩
            have := congrArg Prod.fst (Option.some.inj hent)
            exact this
      | null => exact Option.noConfusion hent
      | bool b => exact Option.noConfusion hent
      | num n => exact Option.noConfusion hent
      | str s => exact Option.noConfusion hent
      | arr xs => exact Option.noConfusion hent
    · rintro ⟨node, nObj, hmem, heq, hkey, hkeeps⟩
      have hent := cleanEntryOf_kept node nObj heq (hwf _ hmem) hkeeps
      subst hkey
      exact ⟨_, List.mem_filterMap.mpr ⟨node, hmem, hent⟩⟩
  · intro node nObj hmem heq hkeeps
    have hent := cleanEntryOf_kept node nObj heq (hwf _ hmem) hkeeps
    have hmemfm : (cleanKeyStr node,
        JValue.obj [("type", dget nObj "type"), ("title", cleanTitleOf nObj),
                    ("configurable", JValue.obj (extractTotal nObj))]) ∈
        nodes.filterMap cleanEntryOf :=
      List.mem_filterMap.mpr ⟨node, hmem, hent⟩
    have hlook := olookup_eq_of_mem_nodup _ _ _ hkeysnd hmemfm
    obtain ⟨cfg, hcfg, htot, hwv, -⟩ := extract_spec nObj (heq ▸ hwf _ hmem)
    refine ⟨_, extractTotal nObj, hlook, rfl, ?_⟩
    rw [htot]
    exact hwv
  · obtain ⟨fm, cp, hfmt, hcp, -, hloop, -⟩ :=
      format_spec cl
        [("id", dget wd "id"), ("name", JValue.str ""),
         ("description", JValue.str "Auto-generated configuration template")]
        (nodes.filterMap cleanEntryOf) hinfo rfl hnodes hshape
    obtain ⟨cp2, hloop2, -, -, hmemb⟩ :=
      formatLoop_spec (nodes.filterMap cleanEntryOf) [] hshape (by intro kv h; cases h)
    have hcpeq : cp2 = cp := by
      rw [hloop] at hloop2
      injection hloop2 with h3
      exact h3.symm
    subst hcpeq
    refine ⟨fm, cp2, hfmt, hcp, ?_⟩
    intro node nObj hmem heq hkeeps
    have hent := cleanEntryOf_kept node nObj heq (hwf _ hmem) hkeeps
    have hmemfm := List.mem_filterMap.mpr ⟨node, hmem, hent⟩
    refine ⟨_, hent, rfl, hmemb hpairs _ hmemfm⟩

/-- Witness for C4 on a one-node workflow. -/
theorem clean_workflow_inclusion_and_grouping_witness :
    dgetD [("nodes", JValue.arr [JValue.obj
        [("id", JValue.num 3), ("type", JValue.str "KSampler"),
         ("widgets_values", JValue.arr [JValue.num 7])]])]
      "nodes" (JValue.arr []) =
      JValue.arr [JValue.obj
        [("id", JValue.num 3), ("type", JValue.str "KSampler"),
         ("widgets_values", JValue.arr [JValue.num 7])]] ∧
    ∃ cl, clean_workflow_for_config (JValue.obj
        [("nodes", JValue.arr [JValue.obj
          [("id", JValue.num 3), ("type", JValue.str "KSampler"),
           ("widgets_values", JValue.arr [JValue.num 7])]])]) = .ok (JValue.obj cl) ∧
      olookup cl "nodes" = some (JValue.obj
        ([JValue.obj [("id", JValue.num 3), ("type", JValue.str "KSampler"),
                      ("widgets_values", JValue.arr [JValue.num 7])]].filterMap
          cleanEntryOf)) := by
  refine ⟨rfl, ?_⟩
  obtain ⟨cl, h1, h2, -, -, -⟩ :=
    clean_workflow_inclusion_and_grouping
      [("nodes", JValue.arr [JValue.obj
        [("id", JValue.num 3), ("type", JValue.str "KSampler"),
         ("widgets_values", JValue.arr [JValue.num 7])]])]
      [JValue.obj [("id", JValue.num 3), ("type", JValue.str "KSampler"),
                   ("widgets_values", JValue.arr [JValue.num 7])]]
      rfl
      (by
        intro node hnode
        simp only [List.mem_singleton] at hnode
        subst hnode
        exact ⟨_, rfl, Or.inl rfl⟩)
      (by
        intro node nObj hnode heq hk
        simp only [List.mem_singleton] at hnode
        subst hnode
        injection heq with heq
        subst heq
        exact ⟨3, rfl⟩)
      (by
        rw [List.filter_cons]
        rw [show nodeKept (JValue.obj
          [("id", JValue.num 3), ("type", JValue.str "KSampler"),
           ("widgets_values", JValue.arr [JValue.num 7])]) = true from rfl]
        simp)
      (by
        rw [List.filterMap_cons]
        rw [show cleanEntryOf (JValue.obj
          [("id", JValue.num 3), ("type", JValue.str "KSampler"),
           ("widgets_values", JValue.arr [JValue.num 7])]) =
          some (pyStr (JValue.num 3),
            JValue.obj [("type", JValue.str "KSampler"),
              ("title", JValue.str (pyStr (JValue.str "KSampler") ++ "_" ++ pyStr (JValue.num 3))),
              ("configurable", JValue.obj [("widgets_values", JValue.arr [JValue.num 7])])])
          from rfl]
        simp)
  exact ⟨cl, h1, h2⟩

/-!
## C5 — supporting lemmas for the API-format conversion
-/

theorem findLink_eq (lid : JValue) :
    ∀ links : List JValue, LinksWF links →
    findLink links lid = .ok ((links.find? (linkMatches lid)).map (fun l =>
      match l with
      | .arr xs => (xs.getD 1 JValue.null, xs.getD 2 JValue.null)
      | _ => (JValue.null, JValue.null))) := by
  intro links
  induction links with
  | nil => intro _; rfl
  | cons l rest ih =>
      intro hwf
      obtain ⟨xs, rfl, hlen⟩ := hwf l (List.mem_cons_self _ _)
      have hrest := ih (fun x hx => hwf x (List.mem_cons_of_mem _ hx))
      have h0 : xs.get? 0 = some (xs.getD 0 JValue.null) := by
        rw [List.getD_eq_getElem xs JValue.null (by omega)]
        exact List.get?_eq_get (by omega)
      cases hm : pyEq (xs.getD 0 JValue.null) lid with
      | true =>
          have hlm : linkMatches lid (JValue.arr xs) = true := by
            rw [linkMatches, h0]
            exact hm
          have h1 : xs.get? 1 = some (xs.getD 1 JValue.null) := by
            rw [List.getD_eq_getElem xs JValue.null (by omega)]
            exact List.get?_eq_get (by omega)
          have h2 : xs.get? 2 = some (xs.getD 2 JValue.null) := by
            rw [List.getD_eq_getElem xs JValue.null (by omega)]
            exact List.get?_eq_get (by omega)
          rw [findLink]
          simp only [except_ok_bind, h0, hm, if_true, h1, h2]
          rw [List.find?_cons_of_pos _ hlm]
          rfl
      | false =>
          have hlm : linkMatches lid (JValue.arr xs) = false := by
            rw [linkMatches, h0]
            exact hm
          rw [findLink]
          simp only [except_ok_bind, h0, hm, Bool.false_eq_true, if_false]
          rw [List.find?_cons_of_neg _ (by rw [hlm]; exact Bool.false_ne_true)]
          exact hrest

theorem buildLinkInputs_spec (links : List JValue) (hlwf : LinksWF links) :
    ∀ (defs : List JValue),
    (∀ d ∈ defs, ∃ dObj n, d = JValue.obj dObj ∧
      olookup dObj "name" = some (JValue.str n)) →
    ((defs.map inputNameOf).Nodup) →
    ∀ acc, ∃ res, buildLinkInputs links defs acc = .ok res ∧
      (∀ k, (∀ d ∈ defs, inputNameOf d ≠ k) → olookup res k = olookup acc k) ∧
      (∀ d dObj, d ∈ defs → d = JValue.obj dObj →
        jIsNull (dget dObj "link") = false →
        ∀ xs, links.find? (linkMatches (dget dObj "link")) = some (JValue.arr xs) →
          olookup res (inputNameOf d) = some (JValue.arr
            [JValue.str (pyStr (xs.getD 1 JValue.null)), xs.getD 2 JValue.null])) := by
  intro defs
  induction defs with
  | nil =>
      intro _ _ acc
      exact ⟨acc, rfl, fun _ _ => rfl, fun d _ h => absurd h (List.not_mem_nil d)⟩
  | cons d0 rest ih =>
      intro hdwf hnodup acc
      obtain ⟨dObj, n, rfl, hname⟩ := hdwf d0 (List.mem_cons_self _ _)
      have hnm : inputNameOf (JValue.obj dObj) = n := by
        rw [inputNameOf, hname]
      simp only [List.map_cons, List.nodup_cons] at hnodup
      have ihr := ih (fun x hx => hdwf x (List.mem_cons_of_mem _ hx)) hnodup.2
      cases hlk : jIsNull (dget dObj "link") with
      | true =>
          obtain ⟨res, hres, hframe, hlook⟩ := ihr acc
          refine ⟨res, ?_, ?_, ?_⟩
          · rw [buildLinkInputs]
            simp [asObj, hlk, hres]
          · intro k hk
            exact hframe k (fun x hx => hk x (List.mem_cons_of_mem _ hx))
          · intro d dObj2 hd hdeq hnn xs hfind
            rcases List.mem_cons.mp hd with h | h
            · exfalso
              rw [h] at hdeq
              injection hdeq with hdeq
              subst hdeq
              rw [hlk] at hnn
              cases hnn
            · exact hlook d dObj2 h hdeq hnn xs hfind
      | false =>
          have hfl := findLink_eq (dget dObj "link") links hlwf
          cases hfind : links.find? (linkMatches (dget dObj "link")) with
          | none =>
              obtain ⟨res, hres, hframe, hlook⟩ := ihr acc
              refine ⟨res, ?_, ?_, ?_⟩
              · rw [buildLinkInputs]
                rw [hfind] at hfl
                simp only [asObj, except_ok_bind, hlk, Bool.not_false, if_true,
                  oindex, hname, asStr, hfl]
                simpa using hres
              · intro k hk
                exact hframe k (fun x hx => hk x (List.mem_cons_of_mem _ hx))
              · intro d dObj2 hd hdeq hnn xs hfind2
                rcases List.mem_cons.mp hd with h | h
                · exfalso
                  rw [h] at hdeq
                  injection hdeq with hdeq
                  subst hdeq
                  rw [hfind] at hfind2
                  cases hfind2
                · exact hlook d dObj2 h hdeq hnn xs hfind2
          | some l =>
              obtain ⟨xs0, rfl, hlen0⟩ :=
                hlwf l (List.mem_of_find?_eq_some hfind)
              obtain ⟨res, hres, hframe, hlook⟩ := ihr
                (oset acc n (JValue.arr
                  [JValue.str (pyStr (xs0.getD 1 JValue.null)), xs0.getD 2 JValue.null]))
              refine ⟨res, ?_, ?_, ?_⟩
              · rw [buildLinkInputs]
                rw [hfind] at hfl
                simp only [asObj, except_ok_bind, hlk, Bool.not_false, if_true,
                  oindex, hname, asStr, hfl]
                simpa using hres
              · intro k hk
                rw [hframe k (fun x hx => hk x (List.mem_cons_of_mem _ hx))]
                refine olookup_oset_ne _ _ _ _ ?_
                have := hk _ (List.mem_cons_self _ _)
                rw [hnm] at this
                exact fun e => this e.symm
              · intro d dObj2 hd hdeq hnn xs hfind2
                rcases List.mem_cons.mp hd with h | h
                · subst h
                  injection hdeq with hdeq
                  subst hdeq
                  rw [hfind] at hfind2
                  injection hfind2 with hfind2
                  injection hfind2 with hfind2
                  subst hfind2
                  rw [hnm]
                  rw [hframe n ?_]
                  · exact olookup_oset_self _ _ _
                  · intro x hx e
                    have h1 := hnodup.1
                    rw [hnm] at h1
                    exact h1 (by rw [← e]; exact List.mem_map.mpr ⟨x, hx, rfl⟩)
                · exact hlook d dObj2 h hdeq hnn xs hfind2

theorem skipCursorMap_frame (values : List JValue) (k : String) :
    ∀ (names : List String) (idx : Nat) (acc : Obj), k ∉ names →
    olookup (skipCursorMap values names idx acc) k = olookup acc k := by
  intro names
  induction names with
  | nil => intro idx acc _; rfl
  | cons n rest ih =>
      intro idx acc hk
      simp only [List.mem_cons, not_or] at hk
      rw [skipCursorMap]
      by_cases h : idx < values.length
      · rw [dif_pos h]
        by_cases hw : value_seems_wrong_for_input n (values.get ⟨idx, h⟩)
        · simp only [hw, if_pos]
          rw [ih _ _ hk.2, olookup_oset_ne _ _ _ _ (fun e => hk.1 e)]
        · simp only [hw, Bool.false_eq_true, if_false]
          rw [ih _ _ hk.2, olookup_oset_ne _ _ _ _ (fun e => hk.1 e)]
      · rw [dif_neg h]
        exact ih _ _ hk.2

theorem mapSimpleLoop_frame (values : List JValue) (k : String) :
    ∀ (ws : List Obj) (names : List String) (i : Nat) (acc : Obj) (m : Obj),
    widgetNamesLoop ws = .ok names → k ∉ names →
    mapSimpleLoop values ws i acc = .ok m → olookup m k = olookup acc k := by
  intro ws
  induction ws with
  | nil =>
      intro names i acc m h hk hm
      simp [widgetNamesLoop] at h
      injection hm with hm
      rw [← hm]
  | cons d rest ih =>
      intro names i acc m h hk hm
      cases hov : oindex d "name" with
      | error e => rw [widgetNamesLoop] at h; simp [hov] at h
      | ok v =>
          cases hos : asStr v with
          | error e => rw [widgetNamesLoop] at h; simp [hov, hos] at h
          | ok n =>
              cases hrest : widgetNamesLoop rest with
              | error e => rw [widgetNamesLoop] at h; simp [hov, hos, hrest] at h
              | ok ns =>
                  rw [widgetNamesLoop] at h
                  simp [hov, hos, hrest] at h
                  subst h
                  simp only [List.mem_cons, not_or] at hk
                  rw [mapSimpleLoop] at hm
                  by_cases hi : i < values.length
                  · rw [dif_pos hi] at hm
                    simp only [hov, hos, except_ok_bind] at hm
                    rw [ih ns (i + 1) _ m hrest hk.2 hm]
                    exact olookup_oset_ne _ _ _ _ (fun e => hk.1 e)
                  · rw [dif_neg hi] at hm
                    exact ih ns (i + 1) acc m hrest hk.2 hm

theorem widgetNamesLoop_of_objs (ds : List Obj)
    (h : ∀ d ∈ ds, ∃ n, olookup d "name" = some (JValue.str n)) :
    widgetNamesLoop ds = .ok (ds.map (fun d => inputNameOf (JValue.obj d))) := by
  induction ds with
  | nil => rfl
  | cons d rest ih =>
      obtain ⟨n, hn⟩ := h d (List.mem_cons_self _ _)
      have hrest := ih (fun x hx => h x (List.mem_cons_of_mem _ hx))
      rw [widgetNamesLoop]
      simp [oindex, hn, asStr, hrest, inputNameOf]

theorem mapObjs_of_objs (defs : List JValue)
    (h : ∀ d ∈ defs, ∃ dObj, d = JValue.obj dObj) :
    mapObjs defs = .ok (defs.map jUnwrapObj) := by
  induction defs with
  | nil => rfl
  | cons d rest ih =>
      obtain ⟨dObj, rfl⟩ := h d (List.mem_cons_self _ _)
      have hrest := ih (fun x hx => h x (List.mem_cons_of_mem _ hx))
      rw [mapObjs]
      simp [asObj, hrest, jUnwrapObj]

theorem widgetNamesOf_eq (defs : List JValue)
    (hdwf : ∀ d ∈ defs, ∃ dObj n, d = JValue.obj dObj ∧
      olookup dObj "name" = some (JValue.str n)) :
    widgetNamesOf defs = .ok ((defs.filter isWidgetInput).map inputNameOf) := by
  have hobjs : ∀ d ∈ defs, ∃ dObj, d = JValue.obj dObj := by
    intro d hd
    obtain ⟨dObj, n, he, -⟩ := hdwf d hd
    exact ⟨dObj, he⟩
  rw [widgetNamesOf, widgetInputsOf]
  rw [mapObjs_of_objs defs hobjs]
  simp only [except_ok_bind]
  rw [widgetNamesLoop_of_objs]
  · congr 1
    induction defs with
    | nil => rfl
    | cons d rest ih =>
        obtain ⟨dObj, rfl⟩ := hobjs d (List.mem_cons_self _ _)
        have ihr := ih
          (fun x hx => hdwf x (List.mem_cons_of_mem _ hx))
          (fun x hx => hobjs x (List.mem_cons_of_mem _ hx))
        rw [List.map_cons, List.filter_cons, List.filter_cons]
        cases hw : isWidgetInput (JValue.obj dObj) with
        | true =>
            have hw2 : (!(jIsNull (dget (jUnwrapObj (JValue.obj dObj)) "widget")) &&
                jIsNull (dget (jUnwrapObj (JValue.obj dObj)) "link")) = true := by
              rw [isWidgetInput] at hw
              exact hw
            rw [hw2]
            simp only [if_true, List.map_cons]
            rw [ihr]
            rfl
        | false =>
            have hw2 : (!(jIsNull (dget (jUnwrapObj (JValue.obj dObj)) "widget")) &&
                jIsNull (dget (jUnwrapObj (JValue.obj dObj)) "link")) = false := by
              rw [isWidgetInput] at hw
              exact hw
            rw [hw2]
            simp only [Bool.false_eq_true, if_false]
            exact ihr
  · intro d hd
    rw [List.mem_filter] at hd
    obtain ⟨hd1, -⟩ := hd
    obtain ⟨d0, hd0, hd0e⟩ := List.mem_map.mp hd1
    obtain ⟨dObj, n, he, hn⟩ := hdwf d0 hd0
    subst he
    rw [show jUnwrapObj (JValue.obj dObj) = dObj from rfl] at hd0e
    subst hd0e
    exact ⟨n, hn⟩

theorem mapSimpleLoop_total (values : List JValue) :
    ∀ (ws : List Obj) (names : List String) (i : Nat) (acc : Obj),
    widgetNamesLoop ws = .ok names →
    ∃ m, mapSimpleLoop values ws i acc = .ok m := by
  intro ws
  induction ws with
  | nil => intro names i acc _; exact ⟨acc, rfl⟩
  | cons d rest ih =>
      intro names i acc h
      cases hov : oindex d "name" with
      | error e => rw [widgetNamesLoop] at h; simp [hov] at h
      | ok v =>
          cases hos : asStr v with
          | error e => rw [widgetNamesLoop] at h; simp [hov, hos] at h
          | ok n =>
              cases hrest : widgetNamesLoop rest with
              | error e => rw [widgetNamesLoop] at h; simp [hov, hos, hrest] at h
              | ok ns =>
                  by_cases hi : i < values.length
                  · obtain ⟨m, hm⟩ := ih ns (i + 1)
                      (oset acc n (values.get ⟨i, hi⟩)) hrest
                    refine ⟨m, ?_⟩
                    rw [mapSimpleLoop, dif_pos hi]
                    simp only [hov, hos, except_ok_bind]
                    simpa using hm
                  · obtain ⟨m, hm⟩ := ih ns (i + 1) acc hrest
                    exact ⟨m, by rw [mapSimpleLoop, dif_neg hi]; exact hm⟩

theorem map_widget_total (values defs : List JValue) (names : List String)
    (hnm : widgetNamesOf defs = .ok names) :
    ∃ m, map_widget_values_to_inputs values defs = .ok m := by
  cases hws : widgetInputsOf defs with
  | error e => rw [widgetNamesOf, hws] at hnm; simp at hnm
  | ok ws =>
      rw [widgetNamesOf, hws] at hnm
      simp at hnm
      by_cases hlt : ws.length < values.length
      · obtain ⟨vs, hvs⟩ := demandNames_ok ws names hnm
        refine ⟨skipCursorMap values names 0 [], ?_⟩
        rw [map_widget_values_to_inputs, hws]
        simp [hlt, hvs, mapExtraLoop_eq_skipCursor values ws names 0 [] hnm]
      · obtain ⟨m, hm⟩ := mapSimpleLoop_total values ws names 0 [] hnm
        refine ⟨m, ?_⟩
        rw [map_widget_values_to_inputs, hws]
        simp [hlt, hm]

theorem map_widget_frame (values defs : List JValue) (names : List String)
    (k : String) (hnm : widgetNamesOf defs = .ok names) (hk : k ∉ names) :
    ∀ m, map_widget_values_to_inputs values defs = .ok m → olookup m k = none := by
  intro m hm
  cases hws : widgetInputsOf defs with
  | error e => rw [widgetNamesOf, hws] at hnm; simp at hnm
  | ok ws =>
      rw [widgetNamesOf, hws] at hnm
      simp at hnm
      rw [map_widget_values_to_inputs, hws] at hm
      simp only [except_ok_bind] at hm
      by_cases hlt : ws.length < values.length
      · obtain ⟨vs, hvs⟩ := demandNames_ok ws names hnm
        rw [if_pos hlt] at hm
        simp only [hvs, except_ok_bind] at hm
        rw [mapExtraLoop_eq_skipCursor values ws names 0 [] hnm] at hm
        injection hm with hm
        rw [← hm, skipCursorMap_frame values k names 0 [] hk]
        rfl
      · rw [if_neg hlt] at hm
        rw [mapSimpleLoop_frame values k ws names 0 [] m hnm hk hm]
        rfl

theorem olookup_oupdate (other : Obj) :
    ∀ (d : Obj) (k : String), olookup other k = none →
    olookup (oupdate d other) k = olookup d k := by
  induction other with
  | nil => intro d k _; rfl
  | cons kv rest ih =>
      intro d k h
      obtain ⟨k2, v2⟩ := kv
      rw [olookup] at h
      by_cases h2 : k2 = k
      · rw [if_pos h2] at h; cases h
      · rw [if_neg h2] at h
        rw [show oupdate d ((k2, v2) :: rest) = oupdate (oset d k2 v2) rest from rfl]
        rw [ih _ k h]
        exact olookup_oset_ne _ _ _ _ (fun e => h2 e.symm)

theorem convertNode_spec (links : List JValue) (hlwf : LinksWF links)
    (node : JValue) (hwf : ConvNodeWF node) :
    ∃ nObj idv tv api, node = JValue.obj nObj ∧
      olookup nObj "id" = some idv ∧ olookup nObj "type" = some tv ∧
      convertNode links node = .ok (pyStr idv,
        JValue.obj [("class_type", tv), ("inputs", JValue.obj api)]) ∧
      LinkedMapped links nObj api := by
  obtain ⟨nObj, rfl, hids, htys, hinp, hwv⟩ := hwf
  obtain ⟨idv, hid⟩ := Option.isSome_iff_exists.mp hids
  obtain ⟨tv, hty⟩ := Option.isSome_iff_exists.mp htys
  rcases hinp with hnone | ⟨defs, hdefs, hdwf, hnodup⟩
  · -- no `inputs` key: no linked inputs and no widget branch
    refine ⟨nObj, idv, tv, [], rfl, hid, hty, ?_, ?_⟩
    · rw [convertNode]
      simp only [asObj, except_ok_bind, oindex, hid, hty, hnone]
      cases hw : olookup nObj "widgets_values" with
      | none => rfl
      | some wv => rfl
    · intro d _ hd
      rw [inputDefsOf, hnone] at hd
      exact absurd hd (List.not_mem_nil d)
  · obtain ⟨linkAcc, hlacc, hframe, hlook⟩ :=
      buildLinkInputs_spec links hlwf defs hdwf hnodup []
    have hdefsOf : inputDefsOf nObj = defs := by rw [inputDefsOf, hdefs]
    have hlinkmapped : LinkedMapped links nObj linkAcc := by
      intro d dObj hd hde hnn xs hfind
      rw [hdefsOf] at hd
      exact hlook d dObj hd hde hnn xs hfind
    have hwnames := widgetNamesOf_eq defs hdwf
    -- a linked input's name is never a widget-input name
    have hnotwidget : ∀ d dObj, d ∈ defs → d = JValue.obj dObj →
        jIsNull (dget dObj "link") = false →
        inputNameOf d ∉ (defs.filter isWidgetInput).map inputNameOf := by
      intro d dObj hd hde hnn hmem
      obtain ⟨d2, hd2, hd2e⟩ := List.mem_map.mp hmem
      rw [List.mem_filter] at hd2
      have hdd : d2 = d :=
        List.inj_on_of_nodup_map hnodup hd2.1 hd hd2e
      rw [hdd, hde] at hd2
      rw [isWidgetInput, hnn] at hd2
      simp at hd2
  -- the inputs key is present, so the widget branch looks at widgets_values
    rcases hwv with hwnone | ⟨ws, hws⟩
    · refine ⟨nObj, idv, tv, linkAcc, rfl, hid, hty, ?_, hlinkmapped⟩
      rw [convertNode]
      simp only [asObj, except_ok_bind, oindex, hid, hty, hdefs, hlacc, hwnone]
    · by_cases htr : pyTruthy (JValue.arr ws) = true
      · obtain ⟨m, hmap⟩ := map_widget_total ws defs _ hwnames
        refine ⟨nObj, idv, tv, oupdate linkAcc m, rfl, hid, hty, ?_, ?_⟩
        · rw [convertNode]
          simp only [asObj, except_ok_bind, oindex, hid, hty, hdefs, hlacc, hws,
            htr, if_true, hmap, except_ok_bind]
        · intro d dObj hd hde hnn xs hfind
          have hnm := map_widget_frame ws defs _ (inputNameOf d) hwnames
            (by
              rw [hdefsOf] at hd
              exact hnotwidget d dObj hd hde hnn) m hmap
          rw [olookup_oupdate m linkAcc _ hnm]
          exact hlinkmapped d dObj hd hde hnn xs hfind
      · simp only [Bool.not_eq_true] at htr
        refine ⟨nObj, idv, tv, linkAcc, rfl, hid, hty, ?_, hlinkmapped⟩
        rw [convertNode]
        simp only [asObj, except_ok_bind, oindex, hid, hty, hdefs, hlacc, hws,
          htr, Bool.false_eq_true, if_false]

theorem convertNodes_eq (links : List JValue) :
    ∀ nodes : List JValue, (∀ node ∈ nodes, ∃ e, convertNode links node = .ok e) →
    convertNodes links nodes = .ok (nodes.map (convertEntryTotal links)) := by
  intro nodes
  induction nodes with
  | nil => intro _; rfl
  | cons node rest ih =>
      intro h
      obtain ⟨e, he⟩ := h node (List.mem_cons_self _ _)
      have hrest := ih (fun x hx => h x (List.mem_cons_of_mem _ hx))
      have htot : convertEntryTotal links node = e := by
        rw [convertEntryTotal, he]
      rw [convertNodes, List.map_cons, htot]
      simp [he, hrest]

theorem foldl_oset_eq (entries : Obj) :
    ∀ acc, (∀ kv ∈ entries, olookup acc kv.1 = none) →
    ((entries.map Prod.fst).Nodup) →
    entries.foldl (fun a kv => oset a kv.1 kv.2) acc = acc ++ entries := by
  induction entries with
  | nil => intro acc _ _; simp
  | cons kv rest ih =>
      intro acc hfresh hnodup
      obtain ⟨k, v⟩ := kv
      simp only [List.map_cons, List.nodup_cons] at hnodup
      rw [List.foldl_cons]
      rw [show oset acc k v = acc ++ [(k, v)] from
        oset_of_absent acc k v (hfresh (k, v) (List.mem_cons_self _ _))]
      rw [ih (acc ++ [(k, v)]) ?_ hnodup.2]
      · rw [List.append_assoc]
        rfl
      · intro kv2 h2
        rw [olookup_append]
        rw [hfresh kv2 (List.mem_cons_of_mem _ h2)]
        have hne : k ≠ kv2.1 := by
          intro e
          exact hnodup.1 (e ▸ List.mem_map.mpr ⟨kv2, h2, rfl⟩)
        simp [olookup, hne]

theorem map_fst_convertEntry (links : List JValue) (hlwf : LinksWF links)
    (nodes : List JValue) (hwf : ∀ node ∈ nodes, ConvNodeWF node) :
    (nodes.map (convertEntryTotal links)).map Prod.fst = nodes.map nodeKeyStr := by
  rw [List.map_map]
  apply List.map_congr_left
  intro node hmem
  obtain ⟨nObj, idv, tv, api, rfl, hid, hty, hconv, -⟩ :=
    convertNode_spec links hlwf node (hwf node hmem)
  show (convertEntryTotal links (JValue.obj nObj)).1 = nodeKeyStr (JValue.obj nObj)
  rw [convertEntryTotal, hconv]
  rw [show nodeKeyStr (JValue.obj nObj) = pyStr (dget nObj "id") from rfl]
  rw [dget, hid]
  rfl

/-- C5: with a `nodes` key, `load_workflow_from_file`'s conversion returns a
    dict with exactly one entry per node, keyed `str(node['id'])` in node
    order, whose `class_type` is the node's `type`; every input with a
    non-null `link` is mapped under its name to `[str(from_node), from_slot]`
    from the first link tuple whose head equals the link id; without a
    `nodes` key the parsed data is returned unchanged. -/
theorem load_workflow_conversion
    (kvs : Obj) (nodes links : List JValue)
    (hnodes : olookup kvs "nodes" = some (JValue.arr nodes))
    (hlinks : dgetD kvs "links" (JValue.arr []) = JValue.arr links)
    (hlwf : LinksWF links)
    (hwf : ∀ node ∈ nodes, ConvNodeWF node)
    (hnodup : (nodes.map nodeKeyStr).Nodup) :
    ∃ prompt, load_workflow_convert (JValue.obj kvs) = .ok (JValue.obj prompt) ∧
      prompt.map Prod.fst = nodes.map nodeKeyStr ∧
      (∀ node nObj idv tv, node ∈ nodes → node = JValue.obj nObj →
        olookup nObj "id" = some idv → olookup nObj "type" = some tv →
        ∃ api, olookup prompt (pyStr idv) =
            some (JValue.obj [("class_type", tv), ("inputs", JValue.obj api)]) ∧
          LinkedMapped links nObj api) ∧
      (∀ kvs2 : Obj, olookup kvs2 "nodes" = none →
        load_workflow_convert (JValue.obj kvs2) = .ok (JValue.obj kvs2)) := by
  have hconvs : ∀ node ∈ nodes, ∃ e, convertNode links node = .ok e := by
    intro node hmem
    obtain ⟨nObj, idv, tv, api, heq, -, -, hconv, -⟩ :=
      convertNode_spec links hlwf node (hwf node hmem)
    exact ⟨_, hconv⟩
  have hentries := convertNodes_eq links nodes hconvs
  have hkeys := map_fst_convertEntry links hlwf nodes hwf
  have hkeysnd : ((nodes.map (convertEntryTotal links)).map Prod.fst).Nodup := by
    rw [hkeys]; exact hnodup
  have hfold := foldl_oset_eq (nodes.map (convertEntryTotal links)) []
    (fun kv _ => rfl) hkeysnd
  rw [List.nil_append] at hfold
  refine ⟨nodes.map (convertEntryTotal links), ?_, hkeys, ?_, ?_⟩
  · rw [load_workflow_convert]
    have hhk : dhasKey kvs "nodes" = true := by
      rw [dhasKey, hnodes]; rfl
    simp only [hhk, if_true, oindex, hnodes, except_ok_bind, hlinks, hentries,
      hfold]
  · intro node nObj idv tv hmem heq hid hty
    obtain ⟨nObj2, idv2, tv2, api, heq2, hid2, hty2, hconv, hmapped⟩ :=
      convertNode_spec links hlwf node (hwf node hmem)
    rw [heq] at heq2
    injection heq2 with heq2
    subst heq2
    rw [hid] at hid2
    injection hid2 with hid2
    subst hid2
    rw [hty] at hty2
    injection hty2 with hty2
    subst hty2
    refine ⟨api, ?_, ?_⟩
    · have hment : (pyStr idv,
          JValue.obj [("class_type", tv), ("inputs", JValue.obj api)]) ∈
          nodes.map (convertEntryTotal links) := by
        refine List.mem_map.mpr ⟨node, hmem, ?_⟩
        rw [convertEntryTotal, hconv]
      exact olookup_eq_of_mem_nodup _ _ _ hkeysnd hment
    · exact hmapped
  · intro kvs2 h2
    rw [load_workflow_convert]
    have hhk : dhasKey kvs2 "nodes" = false := by
      rw [dhasKey, h2]; rfl
    simp [hhk]

/-- Witness: the conversion theorem applied to the one-node workflow `c5Workflow`
    (node id 6, linked `clip` input resolved through `[10, 4, 1, 6, 0, "CLIP"]`,
    one widget value). -/
theorem load_workflow_conversion_witness :
    ∃ prompt, load_workflow_convert (JValue.obj c5Workflow) = .ok (JValue.obj prompt) ∧
      prompt.map Prod.fst = [c5Node].map nodeKeyStr ∧
      (∀ node nObj idv tv, node ∈ [c5Node] → node = JValue.obj nObj →
        olookup nObj "id" = some idv → olookup nObj "type" = some tv →
        ∃ api, olookup prompt (pyStr idv) =
            some (JValue.obj [("class_type", tv), ("inputs", JValue.obj api)]) ∧
          LinkedMapped [c5Link] nObj api) ∧
      (∀ kvs2 : Obj, olookup kvs2 "nodes" = none →
        load_workflow_convert (JValue.obj kvs2) = .ok (JValue.obj kvs2)) := by
  refine load_workflow_conversion c5Workflow [c5Node] [c5Link] rfl rfl ?_ ?_ ?_
  · intro l hl
    rw [List.mem_singleton] at hl
    subst hl
    exact ⟨_, rfl, by decide⟩
  · intro node hmem
    rw [List.mem_singleton] at hmem
    subst hmem
    refine ⟨_, rfl, rfl, rfl, Or.inr ⟨_, rfl, ?_, by decide⟩, Or.inr ⟨_, rfl⟩⟩
    intro d hd
    rw [List.mem_cons, List.mem_singleton] at hd
    rcases hd with rfl | rfl
    · exact ⟨_, "clip", rfl, rfl⟩
    · exact ⟨_, "text", rfl, rfl⟩
  · simp

end Vastai
